import Mathlib

/-!
# Verification of the ERC-7730 clear-signing decode-and-render pipeline

This file is a shallow embedding, in Lean 4, of the core of the
`erc7730` crate: the function-signature parser, the ABI calldata
decoder, the descriptor-driven field walker / format dispatcher, and
the EIP-712 typed-data path.  Definitions are translated from the Rust
sources (`decoder.rs`, `engine.rs`, `eip712.rs`, `lib.rs`,
`address_book.rs`, `token.rs`, the `types` modules).

Modelling conventions:
* Rust `usize`/`u64` arithmetic is modelled by unbounded `Nat`
  (overflow never matters on the inputs considered by the theorems;
  offsets read from calldata are bounded by `2^64` exactly as in the
  source's `read_u256_as_usize`).
* Bytes are `Fin 256`; byte buffers are `List Byte`.
* Rust `HashMap` is modelled as an association list looked up with
  `List.lookup`; iteration order of `HashMap` (relevant only to
  `find_format` with several matching keys) becomes list order.
* Fallible Rust functions return `Except`.  Places where the Rust code
  can *panic* (an out-of-bounds slice) are modelled explicitly by a
  dedicated `DResult.panic` outcome.
* Functions of the source that recurse unboundedly on cyclic input
  (the field walker following `$ref`, intent interpolation) take an
  explicit fuel parameter; exhausting the fuel is a distinguished
  outcome and is proved unreachable where the source terminates.
* External collaborators that are not part of this repository are
  modelled from their published specifications: Keccak-256 (the
  `tiny_keccak` crate) and the Unix-timestamp/Gregorian conversion of
  the `time` crate.
-/

namespace Erc7730

/-- A byte, as stored in a Rust `u8`. -/
abbrev Byte := Fin 256

/-- Lowercase hex digit for a nibble (source: the `hex` crate's encoding). -/
def hexDigit (n : Nat) : Char :=
  if n < 10 then Char.ofNat (48 + n) else Char.ofNat (87 + n)

/-- `hex::encode`: lowercase hex string of a byte buffer. -/
def hexEncode (bs : List Byte) : List Char :=
  bs.foldr (fun b acc => hexDigit (b.val / 16) :: hexDigit (b.val % 16) :: acc) []

/-- ASCII lowercasing of one character (Rust `str::to_lowercase`;
the inputs in this development are ASCII). -/
def asciiLower (c : Char) : Char :=
  if 65 ≤ c.toNat ∧ c.toNat ≤ 90 then Char.ofNat (c.toNat + 32) else c

/-- Rust `str::to_lowercase` on an ASCII string. -/
def strLower (s : List Char) : List Char := s.map asciiLower

/-! ## Keccak-256

Modelled from the spec: the repository delegates hashing to the
external `tiny_keccak` crate (`Keccak::v256()`), which implements
legacy Keccak-256 (rate 1088, capacity 512, multi-rate padding with
domain byte `0x01`).  The permutation below is the standard
Keccak-f[1600], with lanes represented as naturals below `2^64`. -/

/-- 64-bit rotate left on a lane value `< 2^64`. -/
def rotl64 (x n : Nat) : Nat :=
  ((x <<< n) % (2 ^ 64)) ||| (x >>> (64 - n))

/-- Keccak round constants. -/
def keccakRC : List Nat :=
  [0x0000000000000001, 0x0000000000008082, 0x800000000000808a, 0x8000000080008000,
   0x000000000000808b, 0x0000000080000001, 0x8000000080008081, 0x8000000000008009,
   0x000000000000008a, 0x0000000000000088, 0x0000000080008009, 0x000000008000000a,
   0x000000008000808b, 0x800000000000008b, 0x8000000000008089, 0x8000000000008003,
   0x8000000000008002, 0x8000000000000080, 0x000000000000800a, 0x800000008000000a,
   0x8000000080008081, 0x8000000000008080, 0x0000000080000001, 0x8000000080008008]

/-- Keccak rotation offsets by row (`y`), five lanes (`x`) per row. -/
def keccakRotRows : List (List Nat) :=
  [[0, 1, 62, 28, 27],
   [36, 44, 6, 55, 20],
   [3, 10, 43, 25, 39],
   [41, 45, 15, 21, 8],
   [18, 2, 61, 56, 14]]

/-- Keccak rotation offsets, indexed by `x + 5*y`. -/
def keccakRot : List Nat := keccakRotRows.flatten

/-- The state: 25 lanes, index `x + 5*y`. -/
abbrev KState := List Nat

def kget (s : KState) (x y : Nat) : Nat := s.getD (x % 5 + 5 * (y % 5)) 0

/-- One Keccak-f round. -/
def keccakRound (s : KState) (rc : Nat) : KState :=
  let c := (List.range 5).map fun x =>
    (kget s x 0) ^^^ (kget s x 1) ^^^ (kget s x 2) ^^^ (kget s x 3) ^^^ (kget s x 4)
  let d := (List.range 5).map fun x =>
    (c.getD ((x + 4) % 5) 0) ^^^ rotl64 (c.getD ((x + 1) % 5) 0) 1
  let a := (List.range 25).map fun i =>
    (s.getD i 0) ^^^ (d.getD (i % 5) 0)
  -- ρ and π: B[y, 2x+3y] = rotl(A[x,y], r[x,y])
  let b := (List.range 25).map fun i =>
    let x' := i % 5
    let y' := i / 5
    -- find (x, y) with y = x', (2x + 3y) % 5 = y'  ⇒  x = (3 * (y' + 2 * x')) % 5? solve directly
    let x := (x' + 3 * y') % 5
    let y := x'
    rotl64 (kget a x y) (keccakRot.getD (x + 5 * y) 0)
  let chi := (List.range 25).map fun i =>
    let x := i % 5
    let y := i / 5
    (kget b x y) ^^^ ((kget b (x + 1) y) ^^^ 0xffffffffffffffff) &&& (kget b (x + 2) y)
  match chi with
  | a0 :: rest => (a0 ^^^ rc) :: rest
  | [] => []

/-- Keccak-f[1600]: 24 rounds. -/
def keccakF (s : KState) : KState := keccakRC.foldl keccakRound s

/-- Read a little-endian 64-bit lane from 8 bytes. -/
def laneOfBytes (bs : List Byte) : Nat :=
  bs.foldr (fun b acc => acc * 256 + b.val) 0

/-- Write a lane back to 8 little-endian bytes. -/
def bytesOfLane (n : Nat) : List Byte :=
  (List.range 8).map fun i => Fin.ofNat ((n >>> (8 * i)) % 256)

/-- XOR a 136-byte block into the first 17 lanes of the state. -/
def absorbBlock (s : KState) (block : List Byte) : KState :=
  (List.range 25).map fun i =>
    if i < 17 then (s.getD i 0) ^^^ laneOfBytes ((block.drop (8 * i)).take 8)
    else s.getD i 0

/-- Split a padded message into 136-byte blocks (fuel-driven, enough
fuel is supplied by the caller). -/
def chunks136 : Nat → List Byte → List (List Byte)
  | 0, _ => []
  | _ + 1, [] => []
  | fuel + 1, l => l.take 136 :: chunks136 fuel (l.drop 136)

/-- Keccak multi-rate padding with domain byte `0x01` (legacy Keccak). -/
def keccakPad (msg : List Byte) : List Byte :=
  let padLen := 136 - msg.length % 136
  if padLen = 1 then msg ++ [(0x81 : Byte)]
  else msg ++ (0x01 : Byte) :: List.replicate (padLen - 2) (0 : Byte) ++ [(0x80 : Byte)]

/-- Keccak-256 of a byte buffer. -/
def keccak256 (msg : List Byte) : List Byte :=
  let padded := keccakPad msg
  let blocks := chunks136 (padded.length / 136 + 1) padded
  let final := blocks.foldl (fun s b => keccakF (absorbBlock s b)) (List.replicate 25 0)
  ((final.take 4).map bytesOfLane).flatten

/-- UTF-8 encoding of a character sequence (Rust `str::as_bytes`). -/
def utf8Encode (s : List Char) : List Byte :=
  s.flatMap fun c =>
    let n := c.toNat
    if n < 0x80 then [Fin.ofNat n]
    else if n < 0x800 then
      [Fin.ofNat (0xC0 ||| (n >>> 6)), Fin.ofNat (0x80 ||| (n &&& 0x3F))]
    else if n < 0x10000 then
      [Fin.ofNat (0xE0 ||| (n >>> 12)), Fin.ofNat (0x80 ||| ((n >>> 6) &&& 0x3F)),
       Fin.ofNat (0x80 ||| (n &&& 0x3F))]
    else
      [Fin.ofNat (0xF0 ||| (n >>> 18)), Fin.ofNat (0x80 ||| ((n >>> 12) &&& 0x3F)),
       Fin.ofNat (0x80 ||| ((n >>> 6) &&& 0x3F)), Fin.ofNat (0x80 ||| (n &&& 0x3F))]

/-! ## ABI parameter types (`decoder.rs`) -/

/-- `ParamType` — ABI parameter types, recursive to support tuples and arrays. -/
inductive ParamType where
  | address
  | uint (bits : Nat)
  | int (bits : Nat)
  | bool
  | bytes
  | fixedBytes (size : Nat)
  | string
  | array (inner : ParamType)
  | fixedArray (inner : ParamType) (size : Nat)
  | tuple (members : List ParamType)

mutual
/-- `ParamType::is_dynamic`: whether the type is dynamically-sized in ABI encoding. -/
def ParamType.isDynamic : ParamType → Bool
  | .bytes | .string => true
  | .array _ => true
  | .fixedArray inner _ => inner.isDynamic
  | .tuple members => anyDynamic members
  | _ => false
/-- `members.iter().any(|m| m.is_dynamic())`. -/
def anyDynamic : List ParamType → Bool
  | [] => false
  | m :: ms => m.isDynamic || anyDynamic ms
end

/-- `DecodeError` — errors during signature parsing and calldata decoding
(`error.rs`).  Message payloads reproduce the source's `format!` strings. -/
inductive DecodeError where
  | invalidSignature (msg : List Char)
  | calldataTooShort (expected actual : Nat)
  | selectorMismatch (expected actual : List Char)
  | invalidEncoding (msg : List Char)
  | unsupportedType (msg : List Char)
deriving DecidableEq

/-- Parsed function signature (`FunctionSignature`). -/
structure FunctionSignature where
  name : List Char
  params : List ParamType
  canonical : List Char
  selector : List Byte
  deriving Inhabited

/-- Decoded argument values (`ArgumentValue`). -/
inductive ArgumentValue where
  | address (addr : List Byte)
  | uint (bytes : List Byte)
  | int (bytes : List Byte)
  | bool (b : Bool)
  | bytes (b : List Byte)
  | fixedBytes (b : List Byte)
  | string (s : List Char)
  | array (items : List ArgumentValue)
  | tuple (items : List ArgumentValue)

/-- A single decoded argument (`DecodedArgument`). -/
structure DecodedArgument where
  index : Nat
  paramType : ParamType
  value : ArgumentValue

/-- Decoded calldata arguments (`DecodedArguments`). -/
structure DecodedArguments where
  functionName : List Char
  selector : List Byte
  args : List DecodedArgument

/-! ## String helpers used by the parser -/

/-- Rust `str::trim` (both ends; the whitespace test is Lean's
`Char.isWhitespace`, which agrees with Rust on the ASCII inputs of this
development). -/
def trimChars (s : List Char) : List Char :=
  ((s.dropWhile Char.isWhitespace).reverse.dropWhile Char.isWhitespace).reverse

/-- Decimal digits of a natural number, fuel-driven: models the decimal
`Display` of Rust unsigned integers and of `BigUint`. -/
def decCharsAux : Nat → Nat → List Char
  | 0, _ => []
  | fuel + 1, n =>
    if n < 10 then [hexDigit n]
    else decCharsAux fuel (n / 10) ++ [hexDigit (n % 10)]

/-- Decimal string of a natural number (`n.to_string()`). -/
def decChars (n : Nat) : List Char := decCharsAux (n + 1) n

/-- Rust `str::parse::<usize>`: optional leading plus sign, then one or
more decimal digits.  (The 64-bit overflow rejection of `usize` parsing
is not modelled; it is unreachable in the theorems below.) -/
def parseUsize (s : List Char) : Option Nat :=
  let digits := if s.head? = some '+' then s.tail else s
  if digits.isEmpty then none
  else if digits.all Char.isDigit then
    some (digits.foldl (fun a c => a * 10 + (c.toNat - 48)) 0)
  else none

/-- Index of the last occurrence of a character (Rust `str::rfind`). -/
def lastIdxOf (s : List Char) (c : Char) : Option Nat :=
  match s.reverse.findIdx? (· = c) with
  | some j => some (s.length - 1 - j)
  | none => none

/-! ## Canonical form (`canonical_param`, `canonical_params`) -/

mutual
/-- `canonical_param`. -/
def canonicalParam : ParamType → List Char
  | .address => ("address".data)
  | .uint bits => ("uint".data) ++ decChars bits
  | .int bits => ("int".data) ++ decChars bits
  | .bool => ("bool".data)
  | .bytes => ("bytes".data)
  | .fixedBytes size => ("bytes".data) ++ decChars size
  | .string => ("string".data)
  | .array inner => canonicalParam inner ++ ("[]".data)
  | .fixedArray inner size => canonicalParam inner ++ '[' :: (decChars size ++ [']'])
  | .tuple members => '(' :: (canonicalParams members ++ [')'])
/-- `canonical_params`: comma-joined canonical members. -/
def canonicalParams : List ParamType → List Char
  | [] => []
  | [m] => canonicalParam m
  | m :: ms => canonicalParam m ++ ',' :: canonicalParams ms
end

/-- `selector_from_signature`: first 4 bytes of keccak-256 of the
canonical signature. -/
def selectorFromSignature (canonical : List Char) : List Byte :=
  (keccak256 (utf8Encode canonical)).take 4

/-! ## Signature parsing (`parse_signature`, `parse_param_list`, `parse_param_type`)

The two mutually recursive parsing functions take an explicit fuel
argument (structural recursion on the fuel), consumed once per nesting
level.  `parseParamType` below supplies fuel `2 * s.length + 2` (each
nesting level costs three units of fuel and at least two characters of
parentheses), which is proved sufficient on every canonical string by
the round-trip theorem; running out of fuel yields a distinguished
(unreachable) error. -/

/-- Non-recursive tail of `parse_param_type`: tuple test and the
primitive-type match (the recursive tuple case is split out into the
mutual block below). -/
def parsePrimitive (s : List Char) : Except DecodeError ParamType :=
  if s = ("address".data) then .ok .address
  else if s = ("bool".data) then .ok .bool
  else if s = ("string".data) then .ok .string
  else if s = ("bytes".data) then .ok .bytes
  else if ("uint".data).isPrefixOf s then
    if s = ("uint".data) then .ok (.uint 256)
    else match parseUsize (s.drop 4) with
      | some bits => .ok (.uint bits)
      | none => .error (.invalidSignature (("invalid uint width: ".data) ++ s))
  else if ("int".data).isPrefixOf s then
    if s = ("int".data) then .ok (.int 256)
    else match parseUsize (s.drop 3) with
      | some bits => .ok (.int bits)
      | none => .error (.invalidSignature (("invalid int width: ".data) ++ s))
  else if ("bytes".data).isPrefixOf s then
    match parseUsize (s.drop 5) with
    | some size => .ok (.fixedBytes size)
    | none => .error (.invalidSignature (("invalid bytes width: ".data) ++ s))
  else .error (.invalidSignature (("unknown type: ".data) ++ s))

/-- State of the `parse_param_list` scanning loop: current paren depth,
characters of the current segment, parsed types so far (reversed). -/
abbrev PLState := Nat × List Char × List ParamType

mutual
/-- `parse_param_type` (fuel-indexed). -/
def parseParamTypeF : Nat → List Char → Except DecodeError ParamType
  | 0, _ => .error (.invalidSignature ("out of fuel".data))
  | fuel + 1, s0 =>
    let s := trimChars s0
    let arrayBranch : Option (Except DecodeError ParamType) :=
      match lastIdxOf s '[' with
      | some bracketPos =>
        if s.getLast? = some ']' then
          some (match parseParamTypeF fuel (s.take bracketPos) with
            | .error e => .error e
            | .ok inner =>
              let sizeStr := (s.drop (bracketPos + 1)).dropLast
              if sizeStr.isEmpty then .ok (.array inner)
              else match parseUsize sizeStr with
                | some size => .ok (.fixedArray inner size)
                | none =>
                  .error (.invalidSignature (("invalid array size: ".data) ++ sizeStr)))
        else none
      | none => none
    match arrayBranch with
    | some r => r
    | none =>
      if s.head? = some '(' ∧ s.getLast? = some ')' then
        let inner := (s.drop 1).dropLast
        if inner.isEmpty then .ok (.tuple [])
        else match parseParamListF fuel inner with
          | .ok members => .ok (.tuple members)
          | .error e => .error e
      else parsePrimitive s

/-- One step of the `parse_param_list` scanning loop (the body of the
Rust `for (i, c) in s.char_indices()` loop, with the current segment
accumulated instead of sliced; an error freezes the state, which yields
the same final value as Rust's early return). -/
def plStepF : Nat → Except DecodeError PLState → Char → Except DecodeError PLState
  | 0, _, _ => .error (.invalidSignature ("out of fuel".data))
  | fuel + 1, st, c =>
    match st with
    | .error e => .error e
    | .ok (depth, cur, acc) =>
      if c = '(' then .ok (depth + 1, cur ++ [c], acc)
      else if c = ')' then
        match depth with
        | 0 => .error (.invalidSignature ("unbalanced closing paren".data))
        | d + 1 => .ok (d, cur ++ [c], acc)
      else if c = ',' ∧ depth = 0 then
        match parseParamTypeF fuel (trimChars cur) with
        | .ok p => .ok (0, [], p :: acc)
        | .error e => .error e
      else .ok (depth, cur ++ [c], acc)

/-- The epilogue of `parse_param_list`: depth check and the final
segment. -/
def plFinishF : Nat → Except DecodeError PLState → Except DecodeError (List ParamType)
  | 0, _ => .error (.invalidSignature ("out of fuel".data))
  | fuel + 1, st =>
    match st with
    | .error e => .error e
    | .ok (depth, cur, acc) =>
      if depth ≠ 0 then .error (.invalidSignature ("unbalanced parentheses".data))
      else
        let last := trimChars cur
        if last.isEmpty then .ok acc.reverse
        else match parseParamTypeF fuel last with
          | .ok p => .ok (acc.reverse ++ [p])
          | .error e => .error e

/-- `parse_param_list` (fuel-indexed): fold the loop body over the
characters, then run the epilogue. -/
def parseParamListF : Nat → List Char → Except DecodeError (List ParamType)
  | 0, _ => .error (.invalidSignature ("out of fuel".data))
  | fuel + 1, s =>
    plFinishF fuel (s.foldl (fun st c => plStepF fuel st c) (.ok (0, [], [])))
end

/-- `parse_param_type` with its (sufficient) default fuel. -/
def parseParamType (s : List Char) : Except DecodeError ParamType :=
  parseParamTypeF (2 * s.length + 2) s

/-- `parse_param_list` with its (sufficient) default fuel. -/
def parseParamList (s : List Char) : Except DecodeError (List ParamType) :=
  parseParamListF (2 * s.length + 4) s

/-- `parse_signature`. -/
def parseSignature (sig0 : List Char) : Except DecodeError FunctionSignature :=
  let sig := trimChars sig0
  match sig.findIdx? (· = '(') with
  | none => .error (.invalidSignature (("missing opening paren in: ".data) ++ sig))
  | some opening =>
    if sig.getLast? ≠ some ')' then
      .error (.invalidSignature (("missing closing paren in: ".data) ++ sig))
    else
      let name := sig.take opening
      if name.isEmpty then .error (.invalidSignature ("empty function name".data))
      else
        let paramsStr := (sig.drop (opening + 1)).dropLast
        let paramsRes : Except DecodeError (List ParamType) :=
          if paramsStr.isEmpty then .ok [] else parseParamList paramsStr
        match paramsRes with
        | .error e => .error e
        | .ok params =>
          let canonical := name ++ '(' :: (canonicalParams params ++ [')'])
          .ok { name := name, params := params, canonical := canonical,
                selector := selectorFromSignature canonical }

/-! ### Round-trip invariants (proof auxiliaries)

`scanDepth` is an abstract replay of the depth bookkeeping done by the
`parse_param_list` scanning loop: it returns the final parenthesis
depth after a character run, and `none` as soon as the loop would
error or cut a segment (a close paren at depth 0, or a comma at depth
0).  `canonProp` / `canonListProp` package the invariants of canonical
strings used to prove the parse/canonical round-trip. -/

/-- Depth tracking of the scanning loop over a run of characters that
contains no segment boundary. -/
def scanDepth : Nat → List Char → Option Nat
  | d, [] => some d
  | d, c :: cs =>
    if c = '(' then scanDepth (d + 1) cs
    else if c = ')' then
      match d with
      | 0 => none
      | d' + 1 => scanDepth d' cs
    else if c = ',' ∧ d = 0 then none
    else scanDepth d cs

/-- Invariants of `canonicalParam p`: nonempty, whitespace-free,
boundary-free at every depth, and parsed back to `p` given linear
fuel. -/
def canonProp (p : ParamType) : Prop :=
  canonicalParam p ≠ [] ∧
  (∀ c ∈ canonicalParam p, ¬ c.isWhitespace = true) ∧
  (∀ d, scanDepth d (canonicalParam p) = some d) ∧
  (∀ fuel, 2 * (canonicalParam p).length + 1 ≤ fuel →
    parseParamTypeF fuel (canonicalParam p) = .ok p)

/-- Invariants of `canonicalParams ms`: whitespace-free, boundary-free
at every positive depth, nonempty for nonempty `ms`, and scanned back
to `ms` (appended to previously accumulated members) given linear
fuel. -/
def canonListProp (ms : List ParamType) : Prop :=
  (∀ c ∈ canonicalParams ms, ¬ c.isWhitespace = true) ∧
  (∀ d, d ≠ 0 → scanDepth d (canonicalParams ms) = some d) ∧
  (ms ≠ [] → canonicalParams ms ≠ []) ∧
  (∀ f acc, ms ≠ [] → 2 * (canonicalParams ms).length + 2 ≤ f →
    plFinishF f ((canonicalParams ms).foldl (fun st c => plStepF f st c) (.ok (0, [], acc))) =
      .ok (acc.reverse ++ ms))

/-- Concrete signature input exercising the round-trip (mixed
whitespace is trimmed segment-wise while parsing). -/
def roundTripSigInput : List Char := (" transfer( address , uint256 )".data)

/-- The parse of `roundTripSigInput`. -/
def roundTripSig : FunctionSignature :=
  { name := ("transfer".data)
    params := [.address, .uint 256]
    canonical := ("transfer(address,uint256)".data)
    selector := [0xa9, 0x05, 0x9c, 0xbb] }

/-! ## Calldata decoding (`decode_calldata` and helpers)

Results carry a fourth outcome, `panic`, for the places where the Rust
code indexes a slice without a sufficient bounds guarantee, and an
`outOfFuel` artifact for the fuel-indexed recursion (supplied
generously by the wrapper; no theorem relies on its value). -/

/-- Outcome of a decoding computation. -/
inductive DResult (α : Type) where
  | ok (a : α)
  | err (e : DecodeError)
  | panic
  | outOfFuel
deriving DecidableEq

instance : Monad DResult where
  pure a := .ok a
  bind r f := match r with
    | .ok a => f a
    | .err e => .err e
    | .panic => .panic
    | .outOfFuel => .outOfFuel

/-- `data[offset..offset+len]` as a list (callers establish bounds). -/
def sliceBytes (data : List Byte) (offset len : Nat) : List Byte :=
  (data.drop offset).take len

/-- Big-endian byte interpretation (`BigUint::from_bytes_be`, `u64::from_be_bytes`). -/
def beNat (bs : List Byte) : Nat :=
  bs.foldl (fun a b => a * 256 + b.val) 0

/-- `ensure_bytes`. -/
def ensureBytes (data : List Byte) (offset len : Nat) : DResult Unit :=
  if offset + len > data.length then
    .err (.calldataTooShort (offset + len) data.length)
  else .ok ()

/-- `read_u256_as_usize`: ensure 32 bytes, reject a word whose high 24
bytes are not all zero, read the low 8 bytes big-endian. -/
def readU256AsUsize (data : List Byte) (offset : Nat) : DResult Nat := do
  ensureBytes data offset 32
  let word := sliceBytes data offset 32
  if (word.take 24).any (fun b => b ≠ 0) then
    .err (.invalidEncoding ("offset too large for usize".data))
  else
    pure (beNat (word.drop 24))

/-- Validating UTF-8 decoder: models Rust `std::str::from_utf8`
(rejecting overlong encodings, surrogates and values above U+10FFFF). -/
def utf8Decode : List Byte → Option (List Char)
  | [] => some []
  | b1 :: rest =>
    if b1.val < 0x80 then
      (utf8Decode rest).map (fun cs => Char.ofNat b1.val :: cs)
    else if 0xC2 ≤ b1.val ∧ b1.val ≤ 0xDF then
      match rest with
      | b2 :: rest2 =>
        if 0x80 ≤ b2.val ∧ b2.val ≤ 0xBF then
          (utf8Decode rest2).map fun cs =>
            Char.ofNat (((b1.val - 0xC0) <<< 6) ||| (b2.val - 0x80)) :: cs
        else none
      | _ => none
    else if 0xE0 ≤ b1.val ∧ b1.val ≤ 0xEF then
      match rest with
      | b2 :: b3 :: rest2 =>
        let lo2 := if b1.val = 0xE0 then 0xA0 else 0x80
        let hi2 := if b1.val = 0xED then 0x9F else 0xBF
        if (lo2 ≤ b2.val ∧ b2.val ≤ hi2) ∧ (0x80 ≤ b3.val ∧ b3.val ≤ 0xBF) then
          (utf8Decode rest2).map fun cs =>
            Char.ofNat (((b1.val - 0xE0) <<< 12) ||| ((b2.val - 0x80) <<< 6) |||
              (b3.val - 0x80)) :: cs
        else none
      | _ => none
    else if 0xF0 ≤ b1.val ∧ b1.val ≤ 0xF4 then
      match rest with
      | b2 :: b3 :: b4 :: rest2 =>
        let lo2 := if b1.val = 0xF0 then 0x90 else 0x80
        let hi2 := if b1.val = 0xF4 then 0x8F else 0xBF
        if (lo2 ≤ b2.val ∧ b2.val ≤ hi2) ∧ (0x80 ≤ b3.val ∧ b3.val ≤ 0xBF) ∧
            (0x80 ≤ b4.val ∧ b4.val ≤ 0xBF) then
          (utf8Decode rest2).map fun cs =>
            Char.ofNat (((b1.val - 0xF0) <<< 18) ||| ((b2.val - 0x80) <<< 12) |||
              ((b3.val - 0x80) <<< 6) ||| (b4.val - 0x80)) :: cs
        else none
      | _ => none
    else none

mutual
/-- `decode_value`: dynamic types read an offset word first, then
decode at the tail; static types decode in place (fuel-indexed). -/
def decodeValueF : Nat → ParamType → List Byte → Nat → DResult ArgumentValue
  | 0, _, _, _ => .outOfFuel
  | fuel + 1, param, data, headOffset =>
    if param.isDynamic then do
      let offset ← readU256AsUsize data headOffset
      decodeValueAtF fuel param data offset
    else decodeValueAtF fuel param data headOffset
termination_by structural fuel => fuel

/-- `decode_value_at` (fuel-indexed). -/
def decodeValueAtF : Nat → ParamType → List Byte → Nat → DResult ArgumentValue
  | 0, _, _, _ => .outOfFuel
  | fuel + 1, param, data, offset => do
    ensureBytes data offset 32
    match param with
    | .address => pure (.address (sliceBytes data (offset + 12) 20))
    | .uint _ => pure (.uint (sliceBytes data offset 32))
    | .int _ => pure (.int (sliceBytes data offset 32))
    | .bool => pure (.bool ((data.getD (offset + 31) 0).val ≠ 0))
    | .fixedBytes size =>
      -- Rust takes `data[offset..offset + size]` although only 32 bytes
      -- were ensured: a width above 32 can index past the buffer.
      if offset + size ≤ data.length then pure (.fixedBytes (sliceBytes data offset size))
      else .panic
    | .bytes => do
      let len ← readU256AsUsize data offset
      ensureBytes data (offset + 32) len
      pure (.bytes (sliceBytes data (offset + 32) len))
    | .string => do
      let len ← readU256AsUsize data offset
      ensureBytes data (offset + 32) len
      match utf8Decode (sliceBytes data (offset + 32) len) with
      | some s => pure (.string s)
      | none => .err (.invalidEncoding ("invalid UTF-8".data))
    | .array inner => do
      let len ← readU256AsUsize data offset
      let values ← decodeElemsF fuel inner data (offset + 32) len
      pure (.array values)
    | .fixedArray inner size => do
      let values ← decodeElemsF fuel inner data offset size
      pure (.array values)
    | .tuple members => do
      let values ← decodeMembersF fuel members data offset
      pure (.tuple values)
termination_by structural fuel => fuel

/-- `decode_array_elements`: `len` elements at successive 32-byte
steps, each decoded through `decode_value`; the caller wraps the
element list in `ArgumentValue::Array` (fuel-indexed). -/
def decodeElemsF : Nat → ParamType → List Byte → Nat → Nat → DResult (List ArgumentValue)
  | 0, _, _, _, _ => .outOfFuel
  | _ + 1, _, _, _, 0 => pure []
  | fuel + 1, inner, data, offset, len + 1 => do
    let v ← decodeValueF fuel inner data offset
    let rest ← decodeElemsF fuel inner data (offset + 32) len
    pure (v :: rest)
termination_by structural fuel => fuel

/-- The member loop of the `Tuple` arm of `decode_value_at`
(fuel-indexed). -/
def decodeMembersF : Nat → List ParamType → List Byte → Nat → DResult (List ArgumentValue)
  | 0, _, _, _ => .outOfFuel
  | _ + 1, [], _, _ => pure []
  | fuel + 1, m :: ms, data, offset => do
    let v ← decodeValueF fuel m data offset
    let rest ← decodeMembersF fuel ms data (offset + 32)
    pure (v :: rest)
termination_by structural fuel => fuel
end

mutual
/-- Total size of a parameter-type tree (used only to pick a generous
default fuel for decoding). -/
def ptWeight : ParamType → Nat
  | .array inner => ptWeight inner + 1
  | .fixedArray inner size => (size + 1) * (ptWeight inner + 1)
  | .tuple members => ptWeights members + 1
  | _ => 1
/-- Sum of `ptWeight` over a list. -/
def ptWeights : List ParamType → Nat
  | [] => 0
  | m :: ms => ptWeight m + ptWeights ms
end

mutual
/-- All `FixedBytes` widths within a type are at most 32 — the bound
under which the decoder's `FixedBytes` slice stays inside the ensured
32-byte word. -/
def widthsOK : ParamType → Bool
  | .fixedBytes size => decide (size ≤ 32)
  | .array inner => widthsOK inner
  | .fixedArray inner _ => widthsOK inner
  | .tuple members => widthsOKList members
  | _ => true
/-- `widthsOK` over a parameter list. -/
def widthsOKList : List ParamType → Bool
  | [] => true
  | m :: ms => widthsOK m && widthsOKList ms
end

/-- Head-section loop of `decode_calldata`: one 32-byte head entry per
top-level parameter. -/
def decodeArgsLoop (fuel : Nat) (data : List Byte) :
    List ParamType → Nat → Nat → DResult (List DecodedArgument)
  | [], _, _ => pure []
  | p :: ps, offset, index => do
    let v ← decodeValueF fuel p data offset
    let rest ← decodeArgsLoop fuel data ps (offset + 32) (index + 1)
    pure ({ index := index, paramType := p, value := v } :: rest)

/-- `decode_calldata`. -/
def decodeCalldata (sig : FunctionSignature) (calldata : List Byte) :
    DResult DecodedArguments :=
  if calldata.length < 4 then
    .err (.calldataTooShort 4 calldata.length)
  else if calldata.take 4 ≠ sig.selector then
    .err (.selectorMismatch (hexEncode sig.selector) (hexEncode (calldata.take 4)))
  else
    let data := calldata.drop 4
    let fuel := (data.length + 2) * (ptWeights sig.params + 2)
    match decodeArgsLoop fuel data sig.params 0 0 with
    | .ok args => .ok { functionName := sig.name, selector := sig.selector, args := args }
    | .err e => .err e
    | .panic => .panic
    | .outOfFuel => .outOfFuel

/-! ## Unix-timestamp rendering

Modelled from the spec: the repository delegates calendar conversion to
the external `time` crate.  `OffsetDateTime::from_unix_timestamp`
accepts exactly the seconds range of years -9999..=9999 and errors
outside it; the formatting description used by the source is
`"[year]-[month]-[day] [hour]:[minute]:[second] UTC"` with zero-padded
fields.  The civil-from-days conversion below is the standard proleptic
Gregorian algorithm. -/

/-- Smallest timestamp accepted by `OffsetDateTime::from_unix_timestamp`. -/
def timeMinTimestamp : Int := -377705116800

/-- Largest timestamp accepted by `OffsetDateTime::from_unix_timestamp`. -/
def timeMaxTimestamp : Int := 253402300799

/-- Proleptic-Gregorian date of a day count since 1970-01-01. -/
def civilFromDays (z0 : Int) : Int × Nat × Nat :=
  let z := z0 + 719468
  let era := z.fdiv 146097
  let doe := (z - era * 146097).toNat
  let yoe := (doe - doe / 1460 + doe / 36524 - doe / 146096) / 365
  let doy := doe - (365 * yoe + yoe / 4 - yoe / 100)
  let mp := (5 * doy + 2) / 153
  let d := doy - (153 * mp + 2) / 5 + 1
  let m := if mp < 10 then mp + 3 else mp - 9
  ((yoe : Int) + era * 400 + (if m ≤ 2 then 1 else 0), m, d)

/-- Two-digit zero-padded decimal. -/
def pad2 (n : Nat) : List Char :=
  if n < 10 then '0' :: decChars n else decChars n

/-- Four-digit zero-padded decimal. -/
def pad4 (n : Nat) : List Char :=
  List.replicate (4 - (decChars n).length) '0' ++ decChars n

/-- Year field with sign for negative years. -/
def yearChars (y : Int) : List Char :=
  if y < 0 then '-' :: pad4 (-y).toNat else pad4 y.toNat

/-- `OffsetDateTime::from_unix_timestamp(ts)?.format("[year]-[month]-[day]
[hour]:[minute]:[second] UTC")`: `none` when the timestamp is out of the
crate's range. -/
def formatTimestampUTC (ts : Int) : Option (List Char) :=
  if ts < timeMinTimestamp ∨ timeMaxTimestamp < ts then none
  else
    let days := ts.fdiv 86400
    let secs := (ts - days * 86400).toNat
    let ymd := civilFromDays days
    some (yearChars ymd.1 ++ '-' :: pad2 ymd.2.1 ++ '-' :: pad2 ymd.2.2 ++
      ' ' :: pad2 (secs / 3600) ++ ':' :: pad2 (secs % 3600 / 60) ++
      ':' :: pad2 (secs % 60) ++ (" UTC".data))

/-! ## JSON values (`serde_json::Value`)

Objects are association lists; numbers are restricted to integers (the
claims under verification never touch floating-point JSON numbers). -/

inductive Json where
  | null
  | bool (b : Bool)
  | num (n : Int)
  | str (s : List Char)
  | arr (items : List Json)
  | obj (fields : List (List Char × Json))

mutual
/-- Structural equality of JSON values (`serde_json::Value: PartialEq`;
object comparison is by field order in this model — the claims compare
only scalars). -/
def jsonBeq : Json → Json → Bool
  | .null, .null => true
  | .bool a, .bool b => a == b
  | .num a, .num b => a == b
  | .str a, .str b => a == b
  | .arr a, .arr b => jsonListBeq a b
  | .obj a, .obj b => jsonObjBeq a b
  | _, _ => false
def jsonListBeq : List Json → List Json → Bool
  | [], [] => true
  | x :: xs, y :: ys => jsonBeq x y && jsonListBeq xs ys
  | _, _ => false
def jsonObjBeq : List (List Char × Json) → List (List Char × Json) → Bool
  | [], [] => true
  | (k1, v1) :: xs, (k2, v2) :: ys => k1 == k2 && jsonBeq v1 v2 && jsonObjBeq xs ys
  | _, _ => false
end

/-- Decimal rendering of an integer (`i64`/serde number `Display`). -/
def intChars (n : Int) : List Char :=
  if n < 0 then '-' :: decChars (-n).toNat else decChars n.toNat

mutual
/-- `ArgumentValue::to_json_value`. -/
def toJsonValue : ArgumentValue → Json
  | .address addr => .str ('0' :: 'x' :: hexEncode addr)
  | .uint bytes => .str ('0' :: 'x' :: hexEncode bytes)
  | .int bytes => .str ('0' :: 'x' :: hexEncode bytes)
  | .bool b => .bool b
  | .bytes b => .str ('0' :: 'x' :: hexEncode b)
  | .fixedBytes b => .str ('0' :: 'x' :: hexEncode b)
  | .string s => .str s
  | .array items => .arr (toJsonValues items)
  | .tuple items => .arr (toJsonValues items)
def toJsonValues : List ArgumentValue → List Json
  | [] => []
  | v :: vs => toJsonValue v :: toJsonValues vs
end

/-! ## Descriptor model (`types/*.rs`)

`HashMap`s become association lists (first match wins on lookup);
metadata fields that no code path of the core reads (`owner`, `info`,
`token`, `constants`) are omitted. -/

/-- `FieldFormat`. -/
inductive FieldFormat where
  | tokenAmount | amount | date | enum | address | addressName | number
  | raw | tokenTicker | chainId | calldata | nftName | duration | unit
deriving DecidableEq

/-- Debug-style name of a format (used in warning messages,
`format!("{:?}", fmt)`). -/
def FieldFormat.debugName : FieldFormat → List Char
  | .tokenAmount => ("TokenAmount".data)
  | .amount => ("Amount".data)
  | .date => ("Date".data)
  | .enum => ("Enum".data)
  | .address => ("Address".data)
  | .addressName => ("AddressName".data)
  | .number => ("Number".data)
  | .raw => ("Raw".data)
  | .tokenTicker => ("TokenTicker".data)
  | .chainId => ("ChainId".data)
  | .calldata => ("Calldata".data)
  | .nftName => ("NftName".data)
  | .duration => ("Duration".data)
  | .unit => ("Unit".data)

/-- `VisibleCondition`. -/
structure VisibleCondition where
  ifNotIn : Option (List Json)
  mustBe : Option (List Json)

/-- `VisibleCondition::evaluate`. -/
def VisibleCondition.evaluate (c : VisibleCondition) (value : Json) : Bool :=
  let pass1 := match c.ifNotIn with
    | some excluded => !(excluded.any (fun x => jsonBeq x value))
    | none => true
  let pass2 := match c.mustBe with
    | some required => required.any (fun x => jsonBeq x value)
    | none => true
  pass1 && pass2

/-- `VisibleRule`. -/
inductive VisibleRule where
  | bool (b : Bool)
  | named (s : List Char)
  | condition (c : VisibleCondition)
  | always

/-- `EncryptionParams`. -/
structure EncryptionParams where
  fallbackLabel : Option (List Char)

/-- `FormatParams`. -/
structure FormatParams where
  tokenPath : Option (List Char) := none
  nativeCurrencyAddress : Option (List Char) := none
  chainId : Option Nat := none
  chainIdPath : Option (List Char) := none
  enumPath : Option (List Char) := none
  mapReference : Option (List Char) := none
  encryption : Option EncryptionParams := none

/-- `Iteration`. -/
inductive Iteration where
  | sequential | bundled

/-- `DisplayField`; the Rust `FieldGroup` struct is inlined into the
`group` constructor. -/
inductive DisplayField where
  | reference (ref : List Char)
  | group (label : List Char) (iteration : Iteration) (fields : List DisplayField)
  | simple (path : List Char) (label : List Char) (format : Option FieldFormat)
      (params : Option FormatParams) (visible : VisibleRule)

/-- `DisplayFormat`. -/
structure DisplayFormat where
  intent : Option (List Char) := none
  interpolatedIntent : Option (List Char) := none
  fields : List DisplayField := []
  excluded : List (List Char) := []

/-- `DescriptorDisplay`. -/
structure DescriptorDisplay where
  definitions : List (List Char × DisplayField) := []
  formats : List (List Char × DisplayFormat)

/-- A deployment entry. -/
structure Deployment where
  chainId : Nat
  address : List Char

/-- `DescriptorContext` (the unused `$id`/`domain` extras are omitted). -/
inductive DescriptorContext where
  | contract (deployments : List Deployment)
  | eip712Context (deployments : List Deployment)

/-- `DescriptorContext::deployments`. -/
def DescriptorContext.deployments : DescriptorContext → List Deployment
  | .contract ds => ds
  | .eip712Context ds => ds

/-- `Metadata` (fields the core reads). -/
structure Metadata where
  enums : List (List Char × List (List Char × List Char)) := []
  addressBook : List (List Char × List Char) := []
  contractName : Option (List Char) := none
  maps : List (List Char × List (List Char × List Char)) := []

/-- `Descriptor`. -/
structure Descriptor where
  context : DescriptorContext
  metadata : Metadata
  display : DescriptorDisplay

/-- `TokenMeta`. -/
structure TokenMeta where
  symbol : List Char
  decimals : Nat
  name : List Char

/-- `TokenLookupKey::new`: the normalized CAIP-19-style string. -/
def tokenLookupKey (chainId : Nat) (address : List Char) : List Char :=
  ("eip155:".data) ++ decChars chainId ++ ("/erc20:".data) ++ strLower address

/-- `TokenSource`: one capability operation, keyed by the normalized
lookup string. -/
def TokenSource := List Char → Option TokenMeta

/-! ## Address book (`address_book.rs`)

The `HashMap` is modelled by prepending on insert and taking the first
match on lookup, so the most recent insertion shadows older ones —
exactly the observable behavior of `HashMap::insert`. -/

/-- The address book entries. -/
def AddressBook := List (List Char × List Char)

/-- `AddressBook::from_descriptor`: deployment addresses labelled with
the contract name, then the metadata address book (overriding). -/
def addressBookFromDescriptor (context : DescriptorContext) (metadata : Metadata) :
    AddressBook :=
  let e0 : AddressBook := match metadata.contractName with
    | some name =>
      context.deployments.foldl (fun es d => (strLower d.address, name) :: es) []
    | none => []
  metadata.addressBook.foldl (fun es e => (strLower e.1, e.2) :: es) e0

/-- `AddressBook::resolve`: lowercased lookup. -/
def addressBookResolve (book : AddressBook) (address : List Char) : Option (List Char) :=
  List.lookup (strLower address) book

/-! ## Display model and errors (`engine.rs`, `error.rs`) -/

/-- `GroupIteration`. -/
inductive GroupIteration where
  | sequential | bundled
deriving DecidableEq

/-- `DisplayItem`. -/
structure DisplayItem where
  label : List Char
  value : List Char
deriving DecidableEq

/-- `DisplayEntry`. -/
inductive DisplayEntry where
  | item (it : DisplayItem)
  | group (label : List Char) (iteration : GroupIteration) (items : List DisplayItem)
deriving DecidableEq

/-- `DisplayModel`. -/
structure DisplayModel where
  intent : List Char
  interpolatedIntent : Option (List Char)
  entries : List DisplayEntry
  warnings : List (List Char)
deriving DecidableEq

/-- `ResolveError` (`error.rs`). -/
inductive ResolveError where
  | notFound (chainId : Nat) (address : List Char)
  | parseFailure (msg : List Char)
  | ioFailure (msg : List Char)
deriving DecidableEq

/-- The unified `Error` type (`error.rs`). -/
inductive Error where
  | decode (e : DecodeError)
  | descriptor (msg : List Char)
  | resolve (e : ResolveError)
  | tokenRegistry (msg : List Char)
  | render (msg : List Char)
deriving DecidableEq

/-- Outcome of a rendering computation: success carries the value and
the warnings list (threaded in place of Rust's `&mut Vec<String>`). -/
inductive RResult (α : Type) where
  | ok (a : α) (warnings : List (List Char))
  | err (e : Error)
  | outOfFuel

/-! ## Path resolution and visibility (`engine.rs`) -/

/-- Rust `str::split` on a separator character (keeps empty segments,
yields one empty segment for the empty string). -/
def splitOnChar (sep : Char) : List Char → List (List Char)
  | [] => [[]]
  | c :: rest =>
    match splitOnChar sep rest with
    | seg :: segs =>
      if c = sep then [] :: seg :: segs else (c :: seg) :: segs
    | [] => [[c]]

/-- Rust `str::strip_prefix`. -/
def stripPrefix (pre s : List Char) : Option (List Char) :=
  if pre.isPrefixOf s then some (s.drop pre.length) else none

/-- `navigate_value`: descend into tuples/arrays by numeric segments. -/
def navigateValue (value : ArgumentValue) (segments : List (List Char)) :
    Option ArgumentValue :=
  match segments with
  | [] => some value
  | seg :: rest =>
    match value with
    | .tuple members | .array members =>
      match parseUsize seg with
      | some index =>
        match members.get? index with
        | some v => navigateValue v rest
        | none => none
      | none => none
    | _ => none

/-- `resolve_path`: resolve a descriptor path against decoded arguments. -/
def resolvePath (decoded : DecodedArguments) (path0 : List Char) : Option ArgumentValue :=
  let path1 := trimChars path0
  let path := match stripPrefix ("@.".data) path1 with
    | some rest => rest
    | none => path1
  match parseUsize path with
  | some index => (decoded.args.get? index).map (·.value)
  | none =>
    let segments := splitOnChar '.' path
    let seg0 := segments.headD []
    match parseUsize seg0 with
    | some index =>
      -- a numeric first segment never starts with "args", so a missing
      -- index falls through the Rust `args[N]` block to `None`
      match decoded.args.get? index with
      | some arg =>
        if segments.length = 1 then some arg.value
        else navigateValue arg.value (segments.drop 1)
      | none => none
    | none =>
      match stripPrefix ("args".data) seg0 with
      | some rest =>
        match stripPrefix ("[".data) rest with
        | some inner =>
          if inner.getLast? = some ']' then
            match parseUsize inner.dropLast with
            | some index =>
              match decoded.args.get? index with
              | some arg =>
                if segments.length = 1 then some arg.value
                else navigateValue arg.value (segments.drop 1)
              | none => none
            | none => none
          else none
        | none => none
      | none => none

/-- `check_visibility`. -/
def checkVisibility (rule : VisibleRule) (value : Option ArgumentValue) : Bool :=
  match rule with
  | .always => true
  | .bool b => b
  | .named s => s ≠ ("never".data)
  | .condition cond =>
    match value with
    | some val => cond.evaluate (toJsonValue val)
    | none => true

/-! ## Format dispatch (`engine.rs`) -/

/-- `chain_name`. -/
def chainName (chainId : Nat) : List Char :=
  if chainId = 1 then ("Ethereum".data)
  else if chainId = 10 then ("Optimism".data)
  else if chainId = 56 then ("BNB Chain".data)
  else if chainId = 100 then ("Gnosis".data)
  else if chainId = 137 then ("Polygon".data)
  else if chainId = 250 then ("Fantom".data)
  else if chainId = 324 then ("zkSync Era".data)
  else if chainId = 8453 then ("Base".data)
  else if chainId = 42161 then ("Arbitrum One".data)
  else if chainId = 42170 then ("Arbitrum Nova".data)
  else if chainId = 43114 then ("Avalanche".data)
  else if chainId = 59144 then ("Linea".data)
  else if chainId = 534352 then ("Scroll".data)
  else if chainId = 7777777 then ("Zora".data)
  else ("Chain ".data) ++ decChars chainId

mutual
/-- `format_raw`: the raw string form of a decoded value. -/
def formatRaw : ArgumentValue → List Char
  | .address addr => '0' :: 'x' :: hexEncode addr
  | .uint bytes => decChars (beNat bytes)
  | .int bytes => decChars (beNat bytes)
  | .bool b => if b then ("true".data) else ("false".data)
  | .bytes b => '0' :: 'x' :: hexEncode b
  | .fixedBytes b => '0' :: 'x' :: hexEncode b
  | .string s => s
  | .array items => '[' :: (formatRawJoined items ++ [']'])
  | .tuple items => '(' :: (formatRawJoined items ++ [')'])
/-- `", "`-joined raw strings. -/
def formatRawJoined : List ArgumentValue → List Char
  | [] => []
  | [v] => formatRaw v
  | v :: vs => formatRaw v ++ ',' :: ' ' :: formatRawJoined vs
end

/-- ASCII uppercasing of one character (`char::to_ascii_uppercase`). -/
def asciiUpper (c : Char) : Char :=
  if 97 ≤ c.toNat ∧ c.toNat ≤ 122 then Char.ofNat (c.toNat - 32) else c

/-- `eip55_checksum`: keccak of the lowercase hex, uppercase a digit
iff the corresponding hash nibble is at least 8. -/
def eip55Checksum (addr : List Byte) : List Char :=
  let hexAddr := hexEncode addr
  let hash := keccak256 (utf8Encode hexAddr)
  let checked := hexAddr.enum.map fun p =>
    let i := p.1
    let c := p.2
    let hashNibble :=
      if i % 2 = 0 then ((hash.getD (i / 2) 0).val >>> 4) &&& 0x0f
      else (hash.getD (i / 2) 0).val &&& 0x0f
    if hashNibble ≥ 8 then asciiUpper c else c
  '0' :: 'x' :: checked

/-- `format_address`. -/
def formatAddress (val : ArgumentValue) : List Char :=
  match val with
  | .address addr => eip55Checksum addr
  | _ => formatRaw val

/-- `format_number`. -/
def formatNumber (val : ArgumentValue) : List Char :=
  match val with
  | .uint bytes => decChars (beNat bytes)
  | .int bytes => decChars (beNat bytes)
  | _ => formatRaw val

/-- `format_amount`. -/
def formatAmount (val : ArgumentValue) : Except Error (List Char) :=
  match val with
  | .uint bytes => .ok (decChars (beNat bytes))
  | .int bytes => .ok (decChars (beNat bytes))
  | _ => .ok (formatRaw val)

/-- `format_date`: only `Uint` values are interpreted as timestamps;
`i64::try_from(n).unwrap_or(0)` clamps values of 2^63 or more to 0. -/
def formatDate (val : ArgumentValue) : Except Error (List Char) :=
  match val with
  | .uint bytes =>
    let n := beNat bytes
    let timestamp : Int := if n ≤ 2 ^ 63 - 1 then (n : Int) else 0
    match formatTimestampUTC timestamp with
    | some s => .ok s
    | none => .error (.render ("invalid timestamp".data))
  | _ => .ok (formatRaw val)

/-- Trailing-zero trim (`str::trim_end_matches('0')`). -/
def trimEndZeros (s : List Char) : List Char :=
  (s.reverse.dropWhile (· = '0')).reverse

/-- `format_with_decimals`. -/
def formatWithDecimals (amount : Nat) (decimals : Nat) : List Char :=
  let s := decChars amount
  if decimals = 0 then s
  else if s.length ≤ decimals then
    let zeros := decimals - s.length
    let result := '0' :: '.' :: (List.replicate zeros '0' ++ s)
    let trimmed := trimEndZeros result
    if trimmed.getLast? = some '.' then trimmed ++ ['0'] else trimmed
  else
    let integerPart := s.take (s.length - decimals)
    let decimalPart := s.drop (s.length - decimals)
    let trimmed := trimEndZeros decimalPart
    if trimmed.isEmpty then integerPart else integerPart ++ '.' :: trimmed

/-- Left-pad a digit string with zeros to width `d`. -/
def padLeftZeros (d : Nat) (s : List Char) : List Char :=
  List.replicate (d - s.length) '0' ++ s

/-- The decimal-formatting rule as the specification words it: place a
radix point `decimals` places from the right of the (left-zero-padded)
decimal digits, trim trailing fractional zeros (dropping the point when
nothing remains), and render an amount of exactly zero with positive
decimals as `0.0`.  Stated arithmetically for comparison with the
source's string-splitting `format_with_decimals`. -/
def specDecimalString (amount decimals : Nat) : List Char :=
  if decimals = 0 then decChars amount
  else if amount = 0 then ("0.0".data)
  else
    let intPart := decChars (amount / 10 ^ decimals)
    let frac := trimEndZeros (padLeftZeros decimals (decChars (amount % 10 ^ decimals)))
    if frac.isEmpty then intPart else intPart ++ '.' :: frac

/-- `native_token_meta`. -/
def nativeTokenMeta (chainId : Nat) : TokenMeta :=
  let sn : List Char × List Char :=
    if chainId = 1 ∨ chainId = 5 ∨ chainId = 11155111 then (("ETH".data), ("Ether".data))
    else if chainId = 137 ∨ chainId = 80001 then (("MATIC".data), ("Polygon".data))
    else if chainId = 56 ∨ chainId = 97 then (("BNB".data), ("BNB".data))
    else if chainId = 43114 ∨ chainId = 43113 then (("AVAX".data), ("Avalanche".data))
    else if chainId = 250 then (("FTM".data), ("Fantom".data))
    else if chainId = 42161 ∨ chainId = 421613 then (("ETH".data), ("Ether".data))
    else if chainId = 10 ∨ chainId = 420 then (("ETH".data), ("Ether".data))
    else if chainId = 8453 ∨ chainId = 84531 then (("ETH".data), ("Ether".data))
    else (("ETH".data), ("Ether".data))
  { symbol := sn.1, decimals := 18, name := sn.2 }

/-- The rendering context (`RenderContext` minus the warnings, which
are threaded explicitly). -/
structure RenderCtx where
  descriptor : Descriptor
  decoded : DecodedArguments
  chainId : Nat
  tokenSource : TokenSource
  addressBook : AddressBook

/-- `resolve_chain_id`. -/
def resolveChainId (ctx : RenderCtx) (params : Option FormatParams) : Nat :=
  match params with
  | some ps =>
    match ps.chainId with
    | some cid => cid
    | none =>
      match ps.chainIdPath with
      | some path =>
        match resolvePath ctx.decoded path with
        | some (.uint bytes) => beNat bytes
        | _ => ctx.chainId
      | none => ctx.chainId
  | none => ctx.chainId

/-- `format_address_name`. -/
def formatAddressName (ctx : RenderCtx) (val : ArgumentValue) : List Char :=
  match val with
  | .address addr =>
    let hexAddr := '0' :: 'x' :: hexEncode addr
    match addressBookResolve ctx.addressBook hexAddr with
    | some label => label
    | none => eip55Checksum addr
  | _ => formatRaw val

/-- `format_token_amount` (returns the rendered string and the updated
warnings). -/
def formatTokenAmount (ctx : RenderCtx) (warnings : List (List Char))
    (val : ArgumentValue) (params : Option FormatParams) :
    Except Error (List Char × List (List Char)) :=
  match val with
  | .uint bytes | .int bytes =>
    let rawAmount := beNat bytes
    let lookupChainId := resolveChainId ctx params
    let tokenMeta : Option TokenMeta :=
      match params with
      | some ps =>
        match ps.tokenPath with
        | some tokenPath =>
          match resolvePath ctx.decoded tokenPath with
          | some (.address addr) =>
            let addrHex := '0' :: 'x' :: hexEncode addr
            match ps.nativeCurrencyAddress with
            | some native =>
              if strLower addrHex = strLower native then
                some (nativeTokenMeta lookupChainId)
              else ctx.tokenSource (tokenLookupKey lookupChainId addrHex)
            | none => ctx.tokenSource (tokenLookupKey lookupChainId addrHex)
          | _ => none
        | none => none
      | none => none
    match tokenMeta with
    | some meta =>
      .ok (formatWithDecimals rawAmount meta.decimals ++ ' ' :: meta.symbol, warnings)
    | none =>
      .ok (decChars rawAmount, warnings ++ [("token metadata not found".data)])
  | _ => .ok (formatRaw val, warnings)

/-- `format_token_ticker`. -/
def formatTokenTicker (ctx : RenderCtx) (warnings : List (List Char))
    (val : ArgumentValue) (params : Option FormatParams) :
    Except Error (List Char × List (List Char)) :=
  let lookupChainId := resolveChainId ctx params
  match val with
  | .address addr =>
    let addrHex := '0' :: 'x' :: hexEncode addr
    match ctx.tokenSource (tokenLookupKey lookupChainId addrHex) with
    | some meta => .ok (meta.symbol, warnings)
    | none => .ok (formatRaw val, warnings ++ [("token ticker not found".data)])
  | _ => .ok (formatRaw val, warnings ++ [("token ticker not found".data)])

/-- `format_chain_id` (`u64::try_from(n).unwrap_or(0)`). -/
def formatChainId (val : ArgumentValue) : Except Error (List Char) :=
  match val with
  | .uint bytes =>
    let n := beNat bytes
    let cid := if n ≤ 2 ^ 64 - 1 then n else 0
    .ok (chainName cid)
  | _ => .ok (formatRaw val)

/-- `format_enum`. -/
def formatEnum (ctx : RenderCtx) (val : ArgumentValue)
    (params : Option FormatParams) : Except Error (List Char) :=
  let raw := formatRaw val
  match params with
  | some ps =>
    match ps.enumPath with
    | some enumPath =>
      match List.lookup enumPath ctx.descriptor.metadata.enums with
      | some enumDef =>
        match List.lookup raw enumDef with
        | some label => .ok label
        | none => .ok raw
      | none => .ok raw
    | none => .ok raw
  | none => .ok raw

/-- `resolve_map`. -/
def resolveMap (ctx : RenderCtx) (mapRef : List Char) (val : ArgumentValue) :
    Option (List Char) :=
  let raw := formatRaw val
  match List.lookup mapRef ctx.descriptor.metadata.maps with
  | some mapDef => List.lookup raw mapDef
  | none => none

/-- `format_value`: the dispatcher, with its short-circuits in source
order (unresolved value, encryption fallback, map reference, missing
format, then the format match). -/
def formatValue (ctx : RenderCtx) (warnings : List (List Char))
    (value : Option ArgumentValue) (format : Option FieldFormat)
    (params : Option FormatParams) (path : List Char) :
    Except Error (List Char × List (List Char)) :=
  match value with
  | none =>
    .ok (("<unresolved>".data),
      warnings ++ [("could not resolve path: ".data) ++ path])
  | some val =>
    let encFallback : Option (List Char) :=
      match params with
      | some ps =>
        match ps.encryption with
        | some enc => enc.fallbackLabel
        | none => none
      | none => none
    match encFallback with
    | some fallback => .ok (fallback, warnings)
    | none =>
      let mapped : Option (List Char) :=
        match params with
        | some ps =>
          match ps.mapReference with
          | some mapRef => resolveMap ctx mapRef val
          | none => none
        | none => none
      match mapped with
      | some m => .ok (m, warnings)
      | none =>
        match format with
        | none => .ok (formatRaw val, warnings)
        | some fmt =>
          match fmt with
          | .tokenAmount => formatTokenAmount ctx warnings val params
          | .amount => (formatAmount val).map (fun s => (s, warnings))
          | .date => (formatDate val).map (fun s => (s, warnings))
          | .enum => (formatEnum ctx val params).map (fun s => (s, warnings))
          | .address => .ok (formatAddress val, warnings)
          | .addressName => .ok (formatAddressName ctx val, warnings)
          | .number => .ok (formatNumber val, warnings)
          | .raw => .ok (formatRaw val, warnings)
          | .tokenTicker => formatTokenTicker ctx warnings val params
          | .chainId => (formatChainId val).map (fun s => (s, warnings))
          | _ =>
            .ok (formatRaw val,
              warnings ++ [("format ".data) ++ fmt.debugName ++
                (" not yet implemented".data)])

/-! ## Field walker (`engine.rs`) -/

/-- `resolve_reference`. -/
def resolveReference (descriptor : Descriptor) (reference : List Char) :
    Option DisplayField :=
  match stripPrefix ("#/definitions/".data) reference with
  | some key => List.lookup key descriptor.display.definitions
  | none => none

/-- `find_format` (render-error message abridged: no theorem inspects
it). -/
def findFormat (descriptor : Descriptor) (functionName : List Char)
    (selector : List Byte) : Except Error DisplayFormat :=
  let selectorHex := hexEncode selector
  let rec go : List (List Char × DisplayFormat) → Except Error DisplayFormat
    | [] =>
      .error (.render (("no display format found for function ".data) ++
        functionName ++ (" selector 0x".data) ++ selectorHex))
    | (key, format) :: rest =>
      if key = functionName then .ok format
      else if key.contains '(' then
        if hexEncode (selectorFromSignature key) = selectorHex then .ok format
        else go rest
      else go rest
  go descriptor.display.formats

/-- Iteration conversion in `render_field_group`. -/
def iterationToGroup : Iteration → GroupIteration
  | .sequential => .sequential
  | .bundled => .bundled

mutual
/-- `render_fields` (fuel-indexed; the `for` loop is the structural
recursion over the field list, references recurse through resolved
definitions exactly as the source does). -/
def renderFieldsF : Nat → RenderCtx → List (List Char) → List DisplayField →
    RResult (List DisplayEntry)
  | 0, _, _, _ => .outOfFuel
  | _ + 1, _, warnings, [] => .ok [] warnings
  | fuel + 1, ctx, warnings, field :: rest =>
    match field with
    | .reference ref =>
      match resolveReference ctx.descriptor ref with
      | some resolved =>
        match renderFieldsF fuel ctx warnings [resolved] with
        | .ok sub w1 =>
          match renderFieldsF fuel ctx w1 rest with
          | .ok entries w2 => .ok (sub ++ entries) w2
          | other => other
        | other => other
      | none =>
        renderFieldsF fuel ctx
          (warnings ++ [("unresolved reference: ".data) ++ ref]) rest
    | .group label iteration gfields =>
      match renderFieldGroupF fuel ctx warnings label iteration gfields with
      | .ok optEntry w1 =>
        match renderFieldsF fuel ctx w1 rest with
        | .ok entries w2 => .ok (optEntry.toList ++ entries) w2
        | other => other
      | .err e => .err e
      | .outOfFuel => .outOfFuel
    | .simple path label format params visible =>
      let value := resolvePath ctx.decoded path
      if checkVisibility visible value then
        match formatValue ctx warnings value format params path with
        | .error e => .err e
        | .ok (formatted, w1) =>
          match renderFieldsF fuel ctx w1 rest with
          | .ok entries w2 =>
            .ok (.item { label := label, value := formatted } :: entries) w2
          | other => other
      else renderFieldsF fuel ctx warnings rest
termination_by structural fuel => fuel

/-- `render_field_group` (fuel-indexed). -/
def renderFieldGroupF : Nat → RenderCtx → List (List Char) → List Char →
    Iteration → List DisplayField → RResult (Option DisplayEntry)
  | 0, _, _, _, _, _ => .outOfFuel
  | fuel + 1, ctx, warnings, label, iteration, gfields =>
    match renderGroupItemsF fuel ctx warnings gfields with
    | .ok items w1 =>
      if items.isEmpty then .ok none w1
      else .ok (some (.group label (iterationToGroup iteration) items)) w1
    | .err e => .err e
    | .outOfFuel => .outOfFuel
termination_by structural fuel => fuel

/-- The loop of `render_field_group`: renders each field through
`render_fields` and hoists nested group items (fuel-indexed). -/
def renderGroupItemsF : Nat → RenderCtx → List (List Char) → List DisplayField →
    RResult (List DisplayItem)
  | 0, _, _, _ => .outOfFuel
  | _ + 1, _, warnings, [] => .ok [] warnings
  | fuel + 1, ctx, warnings, f :: fs =>
    match renderFieldsF fuel ctx warnings [f] with
    | .ok sub w1 =>
      let items := sub.flatMap fun e =>
        match e with
        | .item it => [it]
        | .group _ _ subItems => subItems
      match renderGroupItemsF fuel ctx w1 fs with
      | .ok restItems w2 => .ok (items ++ restItems) w2
      | other => other
    | .err e => .err e
    | .outOfFuel => .outOfFuel
termination_by structural fuel => fuel
end

/-! ## Intent interpolation (`interpolate_intent`) -/

/-- First index at which `pat` occurs in `s` (Rust `str::find` with a
string pattern). -/
def findSubstrAux : List Char → List Char → Nat → Option Nat
  | s, pat, i =>
    if pat.isPrefixOf s then some i
    else match s with
      | [] => none
      | _ :: rest => findSubstrAux rest pat (i + 1)

/-- `interpolate_intent` (fuel-indexed: the source loop does not
terminate when a replacement reintroduces a placeholder; the wrapper
supplies template-length fuel, sufficient for replacement-free
substitutions). -/
def interpolateIntentF : Nat → List Char → DecodedArguments → List Char
  | 0, result, _ => result
  | fuel + 1, result, decoded =>
    match findSubstrAux result ("$\x7b".data) 0 with
    | none => result
    | some start =>
      match (result.drop start).findIdx? (· = '}') with
      | none => result
      | some e =>
        let endIdx := start + e
        let path := (result.take endIdx).drop (start + 2)
        let replacement := match resolvePath decoded path with
          | some v => formatRaw v
          | none => ("<?>".data)
        interpolateIntentF fuel
          (result.take start ++ replacement ++ result.drop (endIdx + 1)) decoded

/-- `interpolate_intent` with its default fuel. -/
def interpolateIntent (template : List Char) (decoded : DecodedArguments) : List Char :=
  interpolateIntentF (template.length + 1) template decoded

/-! ## Engine entry point (`engine::format_calldata`) and pipeline (`lib.rs`) -/

/-- Outcome of a whole-pipeline computation. -/
inductive PResult (α : Type) where
  | ok (a : α)
  | err (e : Error)
  | panic
  | outOfFuel

mutual
/-- Node count of a display field tree (fuel sizing only). -/
def dfWeight : DisplayField → Nat
  | .reference _ => 1
  | .group _ _ fields => dfWeights fields + 1
  | .simple _ _ _ _ _ => 1
/-- Sum of `dfWeight`. -/
def dfWeights : List DisplayField → Nat
  | [] => 0
  | f :: fs => dfWeight f + dfWeights fs
end

/-- Generous walker fuel for a format of a descriptor: enough for any
acyclic reference structure appearing in the theorems below. -/
def renderFuel (descriptor : Descriptor) (fields : List DisplayField) : Nat :=
  let defsWeight := descriptor.display.definitions.foldl
    (fun acc d => acc + dfWeight d.2) 0
  (dfWeights fields + defsWeight + 2) * (descriptor.display.definitions.length + 2)

/-- `engine::format_calldata`. -/
def engineFormatCalldata (descriptor : Descriptor) (chainId : Nat)
    (decoded : DecodedArguments) (tokenSource : TokenSource) : PResult DisplayModel :=
  let addressBook := addressBookFromDescriptor descriptor.context descriptor.metadata
  match findFormat descriptor decoded.functionName decoded.selector with
  | .error e => .err e
  | .ok format =>
    let ctx : RenderCtx :=
      { descriptor := descriptor, decoded := decoded, chainId := chainId,
        tokenSource := tokenSource, addressBook := addressBook }
    match renderFieldsF (renderFuel descriptor format.fields) ctx [] format.fields with
    | .outOfFuel => .outOfFuel
    | .err e => .err e
    | .ok entries warnings =>
      let interpolated := format.interpolatedIntent.map
        (fun template => interpolateIntent template decoded)
      .ok { intent := format.intent.getD decoded.functionName,
            interpolatedIntent := interpolated,
            entries := entries, warnings := warnings }

/-- `find_matching_signature` (`lib.rs`; the matched key, unused by the
caller, is not returned). -/
def findMatchingSignature (descriptor : Descriptor) (actualSelector : List Byte) :
    Except Error FunctionSignature :=
  let rec go : List (List Char × DisplayFormat) → Except Error FunctionSignature
    | [] =>
      .error (.render (("no matching format key for selector 0x".data) ++
        hexEncode (actualSelector.take 4)))
    | (key, _) :: rest =>
      if key.contains '(' then
        match parseSignature key with
        | .ok sig =>
          if sig.selector = actualSelector.take 4 then .ok sig else go rest
        | .error _ => go rest
      else go rest
  go descriptor.display.formats

/-- `lib::format_calldata`: the complete calldata pipeline. -/
def formatCalldataPipeline (descriptor : Descriptor) (chainId : Nat)
    (calldata : List Byte) (tokenSource : TokenSource) : PResult DisplayModel :=
  if calldata.length < 4 then
    .err (.decode (.calldataTooShort 4 calldata.length))
  else
    match findMatchingSignature descriptor (calldata.take 4) with
    | .error e => .err e
    | .ok sig =>
      match decodeCalldata sig calldata with
      | .err e => .err (.decode e)
      | .panic => .panic
      | .outOfFuel => .outOfFuel
      | .ok decoded => engineFormatCalldata descriptor chainId decoded tokenSource

/-! ## EIP-712 typed data (`eip712.rs`) -/

/-- `TypedDataDomain`. -/
structure TypedDataDomain where
  name : Option (List Char) := none
  version : Option (List Char) := none
  chainId : Option Nat := none
  verifyingContract : Option (List Char) := none

/-- `TypedData` (the `types` map, unread by the core, is a plain
association list of field name/type pairs). -/
structure TypedData where
  types : List (List Char × List (List Char × List Char)) := []
  primaryType : List Char
  domain : TypedDataDomain
  message : Json

/-- Object-key access (`serde_json::Value::get` with a string index). -/
def jsonGet (j : Json) (key : List Char) : Option Json :=
  match j with
  | .obj fields => List.lookup key fields
  | _ => none

/-- Array-index access (`serde_json::Value::get` with a `usize`). -/
def jsonIdx (j : Json) (i : Nat) : Option Json :=
  match j with
  | .arr items => items.get? i
  | _ => none

/-- One segment of `resolve_typed_path`. -/
def typedSegmentStep (current : Json) (segment : List Char) : Option Json :=
  match segment.findIdx? (· = '[') with
  | some bracket =>
    let key := segment.take bracket
    let idxStr := (segment.drop (bracket + 1)).dropLast
    match jsonGet current key with
    | some next =>
      match parseUsize idxStr with
      | some idx => jsonIdx next idx
      | none => none
    | none => none
  | none => jsonGet current segment

/-- `resolve_typed_path`. -/
def resolveTypedPath (message : Json) (path0 : List Char) : Option Json :=
  let path := match stripPrefix ("@.".data) path0 with
    | some rest => rest
    | none => path0
  (splitOnChar '.' path).foldlM typedSegmentStep message

/-- `check_typed_visibility`. -/
def checkTypedVisibility (rule : VisibleRule) (value : Option Json) : Bool :=
  match rule with
  | .always => true
  | .bool b => b
  | .named s => s ≠ ("never".data)
  | .condition cond =>
    match value with
    | some val => cond.evaluate val
    | none => true

mutual
/-- Compact JSON serialization (`serde_json::Value: Display`); string
escaping is not modelled — no claim serializes a non-scalar. -/
def jsonSerialize : Json → List Char
  | .null => ("null".data)
  | .bool b => if b then ("true".data) else ("false".data)
  | .num n => intChars n
  | .str s => Char.ofNat 34 :: (s ++ [Char.ofNat 34])
  | .arr items => '[' :: (jsonSerializeList items ++ [']'])
  | .obj fields => Char.ofNat 123 :: (jsonSerializeObj fields ++ [Char.ofNat 125])
def jsonSerializeList : List Json → List Char
  | [] => []
  | [v] => jsonSerialize v
  | v :: vs => jsonSerialize v ++ ',' :: jsonSerializeList vs
def jsonSerializeObj : List (List Char × Json) → List Char
  | [] => []
  | [kv] => Char.ofNat 34 :: (kv.1 ++ Char.ofNat 34 :: ':' :: jsonSerialize kv.2)
  | kv :: kvs =>
    Char.ofNat 34 :: (kv.1 ++ Char.ofNat 34 :: ':' :: jsonSerialize kv.2) ++
      ',' :: jsonSerializeObj kvs
end

/-- `json_value_to_string`. -/
def jsonValueToString (val : Json) : List Char :=
  match val with
  | .str s => s
  | .num n => intChars n
  | .bool b => if b then ("true".data) else ("false".data)
  | .null => ("null".data)
  | other => jsonSerialize other

/-- `i64::try_from`/`as_i64` clamping used by the typed date format. -/
def intToI64OrZero (n : Int) : Int :=
  if -(2 ^ 63) ≤ n ∧ n ≤ 2 ^ 63 - 1 then n else 0

/-- Rust `str::parse::<i64>().unwrap_or(0)`. -/
def parseI64OrZero (s : List Char) : Int :=
  let signed : Option Int := match s with
    | '-' :: rest => (parseUsize rest).map (fun n => -(n : Int))
    | _ => (parseUsize s).map (fun n => (n : Int))
  match signed with
  | some n => intToI64OrZero n
  | none => 0

/-- Rust `str::parse::<u64>().unwrap_or(0)` (the overflow rejection is
immaterial to the claims). -/
def parseU64OrZero (s : List Char) : Nat :=
  (parseUsize s).getD 0

/-- `resolve_typed_chain_id`. -/
def resolveTypedChainId (params : Option FormatParams) (defaultChain : Nat)
    (message : Json) : Nat :=
  match params with
  | some ps =>
    match ps.chainId with
    | some cid => cid
    | none =>
      match ps.chainIdPath with
      | some path =>
        match resolveTypedPath message path with
        | some (.num n) => if 0 ≤ n ∧ n ≤ 2 ^ 64 - 1 then n.toNat else defaultChain
        | _ => defaultChain
      | none => defaultChain
  | none => defaultChain

/-- `format_typed_value`: the typed-data format dispatcher.  Unresolved
values return `"<unresolved>"` with **no** warning (unlike the calldata
dispatcher). -/
def formatTypedValue (descriptor : Descriptor) (warnings : List (List Char))
    (value : Option Json) (format : Option FieldFormat)
    (params : Option FormatParams) (chainId : Nat) (message : Json)
    (tokenSource : TokenSource) (addressBook : AddressBook) :
    Except Error (List Char × List (List Char)) :=
  match value with
  | none => .ok (("<unresolved>".data), warnings)
  | some val =>
    let encFallback : Option (List Char) :=
      match params with
      | some ps =>
        match ps.encryption with
        | some enc => enc.fallbackLabel
        | none => none
      | none => none
    match encFallback with
    | some fallback => .ok (fallback, warnings)
    | none =>
      let mapped : Option (List Char) :=
        match params with
        | some ps =>
          match ps.mapReference with
          | some mapRef =>
            match List.lookup mapRef descriptor.metadata.maps with
            | some mapDef => List.lookup (jsonValueToString val) mapDef
            | none => none
          | none => none
        | none => none
      match mapped with
      | some m => .ok (m, warnings)
      | none =>
        match format with
        | none => .ok (jsonValueToString val, warnings)
        | some fmt =>
          match fmt with
          | .address => .ok (jsonValueToString val, warnings)
          | .addressName =>
            let addr := jsonValueToString val
            match addressBookResolve addressBook addr with
            | some label => .ok (label, warnings)
            | none => .ok (addr, warnings)
          | .tokenAmount =>
            let amountStr := jsonValueToString val
            let amount := (parseUsize amountStr).getD 0
            let lookupChain := resolveTypedChainId params chainId message
            let tokenMeta : Option TokenMeta :=
              match params with
              | some ps =>
                match ps.tokenPath with
                | some tokenPath =>
                  match resolveTypedPath message tokenPath with
                  | some (.str addr) => tokenSource (tokenLookupKey lookupChain addr)
                  | _ => none
                | none => none
              | none => none
            match tokenMeta with
            | some meta =>
              .ok (formatWithDecimals amount meta.decimals ++ ' ' :: meta.symbol,
                warnings)
            | none => .ok (decChars amount, warnings)
          | .date =>
            let ts : Int := match val with
              | .num n => intToI64OrZero n
              | .str s => parseI64OrZero s
              | _ => 0
            match formatTimestampUTC ts with
            | some s => .ok (s, warnings)
            | none => .error (.render ("invalid timestamp".data))
          | .enum =>
            let raw := jsonValueToString val
            let label : Option (List Char) :=
              match params with
              | some ps =>
                match ps.enumPath with
                | some enumPath =>
                  match List.lookup enumPath descriptor.metadata.enums with
                  | some enumDef => List.lookup raw enumDef
                  | none => none
                | none => none
              | none => none
            match label with
            | some l => .ok (l, warnings)
            | none => .ok (raw, warnings)
          | .number => .ok (jsonValueToString val, warnings)
          | .tokenTicker =>
            let lookupChain := resolveTypedChainId params chainId message
            let addr := jsonValueToString val
            match tokenSource (tokenLookupKey lookupChain addr) with
            | some meta => .ok (meta.symbol, warnings)
            | none =>
              .ok (addr, warnings ++ [("token ticker not found".data)])
          | .chainId =>
            let cid : Nat := match val with
              | .num n => if 0 ≤ n ∧ n ≤ 2 ^ 64 - 1 then n.toNat else 0
              | .str s => parseU64OrZero s
              | _ => 0
            .ok (chainName cid, warnings)
          | _ =>
            .ok (jsonValueToString val,
              warnings ++ [("format ".data) ++ fmt.debugName ++
                (" not yet implemented for EIP-712".data)])

mutual
/-- `render_typed_fields` (fuel-indexed). -/
def renderTypedFieldsF : Nat → Descriptor → Json → List (List Char) → Nat →
    TokenSource → AddressBook → List DisplayField → RResult (List DisplayEntry)
  | 0, _, _, _, _, _, _, _ => .outOfFuel
  | _ + 1, _, _, warnings, _, _, _, [] => .ok [] warnings
  | fuel + 1, descriptor, message, warnings, chainId, tokenSource, addressBook,
      field :: rest =>
    match field with
    | .reference ref =>
      let key := match stripPrefix ("#/definitions/".data) ref with
        | some k => k
        | none => ref
      match List.lookup key descriptor.display.definitions with
      | some resolved =>
        match renderTypedFieldsF fuel descriptor message warnings chainId
            tokenSource addressBook [resolved] with
        | .ok sub w1 =>
          match renderTypedFieldsF fuel descriptor message w1 chainId
              tokenSource addressBook rest with
          | .ok entries w2 => .ok (sub ++ entries) w2
          | other => other
        | other => other
      | none =>
        renderTypedFieldsF fuel descriptor message
          (warnings ++ [("unresolved reference: ".data) ++ ref]) chainId
          tokenSource addressBook rest
    | .group label iteration gfields =>
      match renderTypedFieldGroupF fuel descriptor message warnings chainId
          tokenSource addressBook label iteration gfields with
      | .ok optEntry w1 =>
        match renderTypedFieldsF fuel descriptor message w1 chainId
            tokenSource addressBook rest with
        | .ok entries w2 => .ok (optEntry.toList ++ entries) w2
        | other => other
      | .err e => .err e
      | .outOfFuel => .outOfFuel
    | .simple path label format params visible =>
      let value := resolveTypedPath message path
      if checkTypedVisibility visible value then
        match formatTypedValue descriptor warnings value format params chainId
            message tokenSource addressBook with
        | .error e => .err e
        | .ok (formatted, w1) =>
          match renderTypedFieldsF fuel descriptor message w1 chainId
              tokenSource addressBook rest with
          | .ok entries w2 =>
            .ok (.item { label := label, value := formatted } :: entries) w2
          | other => other
      else
        renderTypedFieldsF fuel descriptor message warnings chainId tokenSource
          addressBook rest
termination_by structural fuel => fuel

/-- `render_typed_field_group` (fuel-indexed): renders the inner fields
in one pass and hoists nested group items. -/
def renderTypedFieldGroupF : Nat → Descriptor → Json → List (List Char) → Nat →
    TokenSource → AddressBook → List Char → Iteration → List DisplayField →
    RResult (Option DisplayEntry)
  | 0, _, _, _, _, _, _, _, _, _ => .outOfFuel
  | fuel + 1, descriptor, message, warnings, chainId, tokenSource, addressBook,
      label, iteration, gfields =>
    match renderTypedFieldsF fuel descriptor message warnings chainId tokenSource
        addressBook gfields with
    | .ok sub w1 =>
      let items := sub.flatMap fun e =>
        match e with
        | .item it => [it]
        | .group _ _ subItems => subItems
      if items.isEmpty then .ok none w1
      else .ok (some (.group label (iterationToGroup iteration) items)) w1
    | .err e => .err e
    | .outOfFuel => .outOfFuel
termination_by structural fuel => fuel
end

/-- `interpolate_typed_intent` (fuel-indexed like the calldata variant). -/
def interpolateTypedIntentF : Nat → List Char → Json → List Char
  | 0, result, _ => result
  | fuel + 1, result, message =>
    match findSubstrAux result ("$\x7b".data) 0 with
    | none => result
    | some start =>
      match (result.drop start).findIdx? (· = '}') with
      | none => result
      | some e =>
        let endIdx := start + e
        let path := (result.take endIdx).drop (start + 2)
        let replacement := match resolveTypedPath message path with
          | some v => jsonValueToString v
          | none => ("<?>".data)
        interpolateTypedIntentF fuel
          (result.take start ++ replacement ++ result.drop (endIdx + 1)) message

/-- `interpolate_typed_intent` with its default fuel. -/
def interpolateTypedIntent (template : List Char) (message : Json) : List Char :=
  interpolateTypedIntentF (template.length + 1) template message

/-- `eip712::format_typed_data` (render-error message abridged). -/
def formatTypedData (descriptor : Descriptor) (data : TypedData)
    (tokenSource : TokenSource) : PResult DisplayModel :=
  let addressBook := addressBookFromDescriptor descriptor.context descriptor.metadata
  let chainId := data.domain.chainId.getD 1
  match List.lookup data.primaryType descriptor.display.formats with
  | none =>
    .err (.render (("no display format found for primary type ".data) ++
      data.primaryType))
  | some format =>
    match renderTypedFieldsF (renderFuel descriptor format.fields) descriptor
        data.message [] chainId tokenSource addressBook format.fields with
    | .outOfFuel => .outOfFuel
    | .err e => .err e
    | .ok entries warnings =>
      .ok { intent := format.intent.getD data.primaryType,
            interpolatedIntent := format.interpolatedIntent.map
              (fun template => interpolateTypedIntent template data.message),
            entries := entries, warnings := warnings }

/-! ## Concrete instances used by the theorems -/

/-- `EmptyTokenSource`. -/
def emptyTokenSource : TokenSource := fun _ => none

/-- A minimal descriptor (no formats, no metadata). -/
def emptyDescriptor : Descriptor :=
  { context := .contract [], metadata := {}, display := { formats := [] } }

/-- The StakeWeight descriptor of the spec's scenario 5 (and of the
repository's `test_stakeweight_increase_unlock_time`). -/
def swDescriptor : Descriptor :=
  { context := .contract
      [{ chainId := 10, address := ("0x521B4C065Bbdbe3E20B3727340730936912DfA46".data) }]
    metadata := { contractName := some ("StakeWeight".data) }
    display :=
      { definitions := []
        formats := [(("increaseUnlockTime(uint256)".data),
          { intent := some ("Increase Unlock Time".data)
            interpolatedIntent := some ("Increase unlock time to ${@.0}".data)
            fields := [.simple ("@.0".data) ("New Unlock Time".data)
              (some .date) none .always] })] } }

/-- Calldata `0x7c616fe6` followed by `0x6945563d` left-padded to 32 bytes. -/
def swCalldata : List Byte :=
  [0x7c, 0x61, 0x6f, 0xe6] ++ List.replicate 28 0 ++ [0x69, 0x45, 0x56, 0x3d]

/-- 20-byte address `0x5aaeb6053f3e94c9b9a09f33669435e7ef1beaed` (the
standard EIP-55 test vector, also used by the repository's tests). -/
def eip55TestAddr : List Byte :=
  [0x5a, 0xae, 0xb6, 0x05, 0x3f, 0x3e, 0x94, 0xc9, 0xb9, 0xa0,
   0x9f, 0x33, 0x66, 0x94, 0x35, 0xe7, 0xef, 0x1b, 0xea, 0xed]

/-- The same address as a lowercase hex string. -/
def eip55TestAddrLower : List Char :=
  ("0x5aaeb6053f3e94c9b9a09f33669435e7ef1beaed".data)

/-- Typed-data descriptor with a single unformatted field at path
`spender` (used to exercise the unresolved-path behavior). -/
def typedPermitDescriptor : Descriptor :=
  { context := .eip712Context []
    metadata := {}
    display :=
      { formats := [(("Permit".data),
          { intent := some ("Permit token spending".data)
            fields := [.simple ("spender".data) ("Spender".data) none none .always] })] } }

/-- Typed data for `Permit` whose message is empty, so the field path
resolves to nothing. -/
def typedPermitEmptyData : TypedData :=
  { primaryType := ("Permit".data)
    domain := { chainId := some 1 }
    message := .obj [] }

/-- A descriptor whose single definition is a reference to itself. -/
def selfRefDescriptor : Descriptor :=
  { context := .contract []
    metadata := {}
    display :=
      { definitions := [(("loop".data), .reference ("#/definitions/loop".data))]
        formats := [(("f".data),
          { fields := [.reference ("#/definitions/loop".data)] })] } }

/-- Decoded arguments with no arguments at all. -/
def emptyDecoded : DecodedArguments :=
  { functionName := ("f".data), selector := [0, 0, 0, 0], args := [] }

/-- Render context over the self-referential descriptor. -/
def selfRefCtx : RenderCtx :=
  { descriptor := selfRefDescriptor, decoded := emptyDecoded, chainId := 1,
    tokenSource := emptyTokenSource, addressBook := [] }

/-- USDT token metadata of the spec's scenario 2. -/
def usdtMeta : TokenMeta :=
  { symbol := ("USDT".data), decimals := 6, name := ("Tether USD".data) }

/-- A token source holding exactly the USDT entry keyed by
`eip155:1/erc20:0xdac17f958d2ee523a2206206994597c13d831ec7`. -/
def usdtTokenSource : TokenSource := fun key =>
  if key = tokenLookupKey 1 ("0xdac17f958d2ee523a2206206994597c13d831ec7".data) then
    some usdtMeta
  else none

/-- The USDT token address as 20 bytes. -/
def usdtAddr : List Byte :=
  [0xda, 0xc1, 0x7f, 0x95, 0x8d, 0x2e, 0xe5, 0x23, 0xa2, 0x20,
   0x62, 0x06, 0x99, 0x45, 0x97, 0xc1, 0x3d, 0x83, 0x1e, 0xc7]

/-- Decoded `transfer(USDT-address, 1000000)` arguments. -/
def usdtTransferDecoded : DecodedArguments :=
  { functionName := ("transfer".data)
    selector := [0xa9, 0x05, 0x9c, 0xbb]
    args :=
      [{ index := 0, paramType := .address, value := .address usdtAddr },
       { index := 1, paramType := .uint 256,
         value := .uint (List.replicate 29 0 ++ [0x0f, 0x42, 0x40]) }] }

/-- Render context for the USDT token-amount scenario. -/
def usdtCtx : RenderCtx :=
  { descriptor := emptyDescriptor, decoded := usdtTransferDecoded, chainId := 1,
    tokenSource := usdtTokenSource, addressBook := [] }

/-- Descriptor whose single format is keyed by the bare function name
`f`, with no intent and no fields (exercises intent defaulting). -/
def intentWitnessDescriptor : Descriptor :=
  { context := .contract [], metadata := {},
    display := { formats := [(("f".data), { fields := [] })] } }

/-- Intent-defaulting witness model: the decoded function name becomes
the intent. -/
def intentWitnessModel : DisplayModel :=
  { intent := ("f".data), interpolatedIntent := none, entries := [], warnings := [] }

/-- The model produced for `Permit` typed data with an empty message:
the field is unresolved, and no warning is recorded. -/
def permitModel : DisplayModel :=
  { intent := ("Permit token spending".data), interpolatedIntent := none,
    entries := [.item ⟨("Spender".data), ("<unresolved>".data)⟩], warnings := [] }

/-- A 32-byte big-endian word holding exactly `2^63`. -/
def word2pow63 : List Byte :=
  List.replicate 24 0 ++ 0x80 :: List.replicate 7 0

@[simp] theorem DResult.bind_panic {α β : Type} (f : α → DResult β) :
    ((DResult.panic : DResult α) >>= f) = .panic := rfl

@[simp] theorem DResult.pure_eq {α : Type} (a : α) :
    (pure a : DResult α) = .ok a := rfl

/-- `ensure_bytes` returns `ok` or the listed `CalldataTooShort`. -/
theorem ensureBytes_cases (data : List Byte) (offset len : Nat) :
    ensureBytes data offset len =
      if data.length < offset + len then
        .err (.calldataTooShort (offset + len) data.length)
      else .ok () := rfl

set_option maxRecDepth 1000000

/-! ## Claim theorems -/

/-- C3: for the calldata path with format key
`increaseUnlockTime(uint256)`, a Date field at `@.0`, interpolated
template `Increase unlock time to ${@.0}` and calldata
`0x7c616fe6 || pad32(0x6945563d)`, the rendered entry value is
`2025-12-19 13:42:21 UTC` — but the interpolated intent substitutes the
*raw* decimal form `1766151741`, not the date, contradicting the
claimed (and unit-tested) `Increase unlock time to 2025-12-19 13:42:21
UTC`. -/
theorem stakeweight_date_pipeline :
    formatCalldataPipeline swDescriptor 10 swCalldata emptyTokenSource =
      .ok { intent := ("Increase Unlock Time".data),
            interpolatedIntent := some ("Increase unlock time to 1766151741".data),
            entries := [.item ⟨("New Unlock Time".data),
              ("2025-12-19 13:42:21 UTC".data)⟩],
            warnings := [] } := by
  rfl

/-- C4 counterexample: in the typed-data path the `Address` format
returns the JSON string verbatim; on the standard EIP-55 test address
the verbatim lowercase string differs from the checksummed rendering
that the calldata path (`format_address`) produces. -/
theorem typed_address_not_checksummed_cex :
    formatTypedValue emptyDescriptor [] (some (.str eip55TestAddrLower))
        (some .address) none 1 .null emptyTokenSource [] =
      .ok (eip55TestAddrLower, []) ∧
    formatAddress (.address eip55TestAddr) =
      ("0x5aAeb6053F3E94C9b9A09f33669435E7Ef1BeAed".data) ∧
    eip55TestAddrLower ≠ ("0x5aAeb6053F3E94C9b9A09f33669435E7Ef1BeAed".data) :=
  ⟨rfl, rfl, by decide⟩

/-- C4 (amended): a typed-data simple field with format `Address`
renders the resolved JSON value's raw string form verbatim — it is
never EIP-55 checksummed. -/
theorem typed_address_renders_verbatim (descriptor : Descriptor)
    (warnings : List (List Char)) (v : Json) (chainId : Nat) (message : Json)
    (tokenSource : TokenSource) (addressBook : AddressBook) :
    formatTypedValue descriptor warnings (some v) (some .address) none chainId
      message tokenSource addressBook = .ok (jsonValueToString v, warnings) := rfl

/-- C5 counterexample: the typed-data pipeline renders an unresolved
path as `"<unresolved>"` but appends **no** warning. -/
theorem typed_unresolved_no_warning_cex :
    formatTypedData typedPermitDescriptor typedPermitEmptyData emptyTokenSource =
      .ok permitModel := rfl

/-- C5 (amended): an unresolved path renders as the literal
`"<unresolved>"` in both dispatchers, but only the calldata dispatcher
appends the warning naming the path; the typed-data dispatcher leaves
the warnings untouched. -/
theorem unresolved_path_rendering :
    (∀ (ctx : RenderCtx) (warnings : List (List Char)) (format : Option FieldFormat)
        (params : Option FormatParams) (path : List Char),
      formatValue ctx warnings none format params path =
        .ok (("<unresolved>".data),
          warnings ++ [("could not resolve path: ".data) ++ path])) ∧
    (∀ (descriptor : Descriptor) (warnings : List (List Char))
        (format : Option FieldFormat) (params : Option FormatParams)
        (chainId : Nat) (message : Json) (tokenSource : TokenSource)
        (addressBook : AddressBook),
      formatTypedValue descriptor warnings none format params chainId message
        tokenSource addressBook = .ok (("<unresolved>".data), warnings)) :=
  ⟨fun _ _ _ _ _ => rfl, fun _ _ _ _ _ _ _ _ => rfl⟩

/-- C6 counterexample: a `Uint` timestamp of `2^63` exceeds the signed
64-bit range, yet `format_date` renders the epoch instead of failing
with a `Render` error (`i64::try_from(n).unwrap_or(0)`). -/
theorem date_overflow_renders_epoch_cex :
    formatDate (.uint word2pow63) = .ok ("1970-01-01 00:00:00 UTC".data) := rfl

/-- A timestamp inside the `time` crate's range formats successfully. -/
theorem formatTimestampUTC_isSome {ts : Int}
    (h1 : timeMinTimestamp ≤ ts) (h2 : ts ≤ timeMaxTimestamp) :
    ∃ s, formatTimestampUTC ts = some s := by
  unfold formatTimestampUTC
  rw [if_neg]
  · exact ⟨_, rfl⟩
  · push_neg
    exact ⟨by omega, by omega⟩

/-- C6 (amended): `format_date` treats only `Uint` values as
timestamps; a value of `2^63` or more is clamped to 0 and renders the
epoch; a `Render` error occurs exactly for values above the date
library's maximum 253402300799 that still fit in 63 bits; in-range
values render through the calendar conversion; strings are not parsed
as timestamps but rendered raw. -/
theorem date_format_clamping :
    (∀ bytes : List Byte, 2 ^ 63 ≤ beNat bytes →
      formatDate (.uint bytes) = .ok ("1970-01-01 00:00:00 UTC".data)) ∧
    (∀ bytes : List Byte, beNat bytes ≤ 2 ^ 63 - 1 → 253402300799 < beNat bytes →
      formatDate (.uint bytes) = .error (.render ("invalid timestamp".data))) ∧
    (∀ bytes : List Byte, beNat bytes ≤ 253402300799 →
      formatDate (.uint bytes) = .ok ((formatTimestampUTC (beNat bytes)).getD [])) ∧
    (∀ s : List Char, formatDate (.string s) = .ok s) := by
  refine ⟨fun bytes h => ?_, fun bytes h1 h2 => ?_, fun bytes h => ?_, fun s => rfl⟩
  · simp only [formatDate]
    rw [if_neg (by omega)]
    rfl
  · simp only [formatDate]
    rw [if_pos h1]
    have hnone : formatTimestampUTC (beNat bytes : Int) = none := by
      unfold formatTimestampUTC
      rw [if_pos]
      right
      unfold timeMaxTimestamp
      exact_mod_cast h2
    rw [hnone]
  · simp only [formatDate]
    rw [if_pos (by omega)]
    obtain ⟨s, hs⟩ := @formatTimestampUTC_isSome ((beNat bytes : Nat) : Int)
      (by unfold timeMinTimestamp; omega) (by unfold timeMaxTimestamp; exact_mod_cast h)
    rw [hs]
    rfl

/-- C6 witness: each clause of `date_format_clamping` applied at a
concrete input (`2^63`, `253402300800`, `0x6945563d`, `"hi"`). -/
theorem date_format_clamping_witness :
    (2 ^ 63 ≤ beNat word2pow63 ∧
      formatDate (.uint word2pow63) = .ok ("1970-01-01 00:00:00 UTC".data)) ∧
    (beNat [0x3a, 0xff, 0xf4, 0x41, 0x80] ≤ 2 ^ 63 - 1 ∧
      253402300799 < beNat [0x3a, 0xff, 0xf4, 0x41, 0x80] ∧
      formatDate (.uint [0x3a, 0xff, 0xf4, 0x41, 0x80]) =
        .error (.render ("invalid timestamp".data))) ∧
    (beNat [0x69, 0x45, 0x56, 0x3d] ≤ 253402300799 ∧
      formatDate (.uint [0x69, 0x45, 0x56, 0x3d]) =
        .ok ((formatTimestampUTC (beNat [0x69, 0x45, 0x56, 0x3d])).getD [])) ∧
    formatDate (.string ("hi".data)) = .ok ("hi".data) :=
  ⟨⟨by decide, date_format_clamping.1 word2pow63 (by decide)⟩,
   ⟨by decide, by decide,
    date_format_clamping.2.1 [0x3a, 0xff, 0xf4, 0x41, 0x80] (by decide) (by decide)⟩,
   ⟨by decide, date_format_clamping.2.2.1 [0x69, 0x45, 0x56, 0x3d] (by decide)⟩,
   date_format_clamping.2.2.2 ("hi".data)⟩

/-- C8: rendering the self-referential definition never terminates —
it exhausts every fuel bound instead of surfacing a `Render` error (the
source has no recursion-depth cap and overflows the stack); the full
engine render on such a descriptor likewise exhausts its fuel. -/
theorem self_reference_never_terminates :
    (∀ (fuel : Nat) (warnings : List (List Char)),
      renderFieldsF fuel selfRefCtx warnings
        [.reference ("#/definitions/loop".data)] = .outOfFuel) ∧
    engineFormatCalldata selfRefDescriptor 1 emptyDecoded emptyTokenSource =
      .outOfFuel := by
  have main : ∀ (fuel : Nat) (warnings : List (List Char)),
      renderFieldsF fuel selfRefCtx warnings
        [.reference ("#/definitions/loop".data)] = .outOfFuel := by
    intro fuel
    induction fuel with
    | zero => intro w; rfl
    | succ n ih =>
      intro w
      have hres : resolveReference selfRefCtx.descriptor ("#/definitions/loop".data) =
          some (.reference ("#/definitions/loop".data)) := rfl
      simp only [renderFieldsF, hres, ih w]
  exact ⟨main, rfl⟩

/-- C10: when the selected display format carries no intent, the
returned model's intent is the decoded function name (calldata path) or
the `primary_type` (typed-data path); a present intent is returned
verbatim — in both cases the intent is `format.intent.getD`. -/
theorem intent_defaulting :
    (∀ (descriptor : Descriptor) (chainId : Nat) (decoded : DecodedArguments)
        (tokenSource : TokenSource) (model : DisplayModel),
      engineFormatCalldata descriptor chainId decoded tokenSource = .ok model →
      ∃ format, findFormat descriptor decoded.functionName decoded.selector = .ok format ∧
        model.intent = format.intent.getD decoded.functionName) ∧
    (∀ (descriptor : Descriptor) (data : TypedData) (tokenSource : TokenSource)
        (model : DisplayModel),
      formatTypedData descriptor data tokenSource = .ok model →
      ∃ format, List.lookup data.primaryType descriptor.display.formats = some format ∧
        model.intent = format.intent.getD data.primaryType) := by
  constructor
  · intro d cid dec ts model h
    cases hf : findFormat d dec.functionName dec.selector with
    | error e => simp [engineFormatCalldata, hf] at h
    | ok format =>
      refine ⟨format, rfl, ?_⟩
      simp only [engineFormatCalldata, hf] at h
      cases hr : renderFieldsF (renderFuel d format.fields)
          { descriptor := d, decoded := dec, chainId := cid, tokenSource := ts,
            addressBook := addressBookFromDescriptor d.context d.metadata }
          [] format.fields with
      | ok entries warnings =>
        simp only [hr] at h
        injection h with h2
        rw [← h2]
      | err e => simp only [hr] at h; simp at h
      | outOfFuel => simp only [hr] at h; simp at h
  · intro d data ts model h
    cases hf : List.lookup data.primaryType d.display.formats with
    | none => simp [formatTypedData, hf] at h
    | some format =>
      refine ⟨format, rfl, ?_⟩
      simp only [formatTypedData, hf] at h
      cases hr : renderTypedFieldsF (renderFuel d format.fields) d data.message []
          (data.domain.chainId.getD 1) ts
          (addressBookFromDescriptor d.context d.metadata) format.fields with
      | ok entries warnings =>
        simp only [hr] at h
        injection h with h2
        rw [← h2]
      | err e => simp only [hr] at h; simp at h
      | outOfFuel => simp only [hr] at h; simp at h

/-- C10 witness: both clauses of `intent_defaulting` at concrete
renders (bare-name format key with no intent; `Permit` with an
intent). -/
theorem intent_defaulting_witness :
    (engineFormatCalldata intentWitnessDescriptor 1 emptyDecoded emptyTokenSource =
      .ok intentWitnessModel ∧
     ∃ format, findFormat intentWitnessDescriptor emptyDecoded.functionName
         emptyDecoded.selector = .ok format ∧
       intentWitnessModel.intent = format.intent.getD emptyDecoded.functionName) ∧
    (formatTypedData typedPermitDescriptor typedPermitEmptyData emptyTokenSource =
      .ok permitModel ∧
     ∃ format, List.lookup typedPermitEmptyData.primaryType
         typedPermitDescriptor.display.formats = some format ∧
       permitModel.intent = format.intent.getD typedPermitEmptyData.primaryType) :=
  ⟨⟨rfl, intent_defaulting.1 intentWitnessDescriptor 1 emptyDecoded emptyTokenSource
      intentWitnessModel rfl⟩,
   ⟨rfl, intent_defaulting.2 typedPermitDescriptor typedPermitEmptyData
      emptyTokenSource permitModel rfl⟩⟩

/-- `ensure_bytes` never panics. -/
theorem ensureBytes_ne_panic (data : List Byte) (offset len : Nat) :
    ensureBytes data offset len ≠ .panic := by
  rw [ensureBytes_cases]
  split <;> simp

/-- The digit printer ignores its fuel once the fuel exceeds the value. -/
theorem decCharsAux_congr (f1 : Nat) : ∀ (n f2 : Nat), n < f1 → n < f2 →
    decCharsAux f1 n = decCharsAux f2 n := by
  induction f1 with
  | zero => intro n f2 h1 _; omega
  | succ f1 ih =>
    intro n f2 h1 h2
    cases f2 with
    | zero => omega
    | succ f2 =>
      simp only [decCharsAux]
      split
      · rfl
      · have hdiv : n / 10 < n := Nat.div_lt_self (by omega) (by norm_num)
        rw [ih (n / 10) f2 (by omega) (by omega)]

/-- Small values print as one digit. -/
theorem decChars_lt10 {n : Nat} (h : n < 10) : decChars n = [hexDigit n] := by
  unfold decChars decCharsAux
  rw [if_pos h]

/-- Unfolding law for two or more digits. -/
theorem decChars_ge10 {n : Nat} (h : 10 ≤ n) :
    decChars n = decChars (n / 10) ++ [hexDigit (n % 10)] := by
  have hdiv : n / 10 < n := Nat.div_lt_self (by omega) (by norm_num)
  unfold decChars
  conv_lhs => rw [decCharsAux]
  rw [if_neg (by omega), decCharsAux_congr n (n / 10) (n / 10 + 1) (by omega) (by omega)]

/-- A decimal rendering is never empty. -/
theorem decChars_ne_nil (n : Nat) : decChars n ≠ [] := by
  by_cases h : n < 10
  · rw [decChars_lt10 h]; simp
  · rw [decChars_ge10 (by omega)]; simp

/-- Every character of a decimal rendering is an ASCII digit. -/
theorem decChars_all_digits (n : Nat) : ∀ c ∈ decChars n, c.isDigit = true := by
  induction n using Nat.strong_induction_on with
  | _ n ih =>
    by_cases h : n < 10
    · rw [decChars_lt10 h]
      intro c hc
      simp only [List.mem_singleton] at hc
      subst hc
      interval_cases n <;> decide
    · rw [decChars_ge10 (by omega)]
      intro c hc
      rcases List.mem_append.mp hc with hc1 | hc2
      · exact ih (n / 10) (Nat.div_lt_self (by omega) (by norm_num)) c hc1
      · simp only [List.mem_singleton] at hc2
        subst hc2
        have : n % 10 < 10 := Nat.mod_lt n (by norm_num)
        interval_cases hm : (n % 10) <;> decide

/-- Digit-count upper bound. -/
theorem decChars_length_le {d n : Nat} (hd : 1 ≤ d) (h : n < 10 ^ d) :
    (decChars n).length ≤ d := by
  induction d generalizing n with
  | zero => omega
  | succ d ih =>
    by_cases hn : n < 10
    · rw [decChars_lt10 hn]; simp
    · have hd1 : 1 ≤ d := by
        by_contra hc
        have : d = 0 := by omega
        subst this
        simp at h
        omega
      rw [decChars_ge10 (by omega)]
      have : n / 10 < 10 ^ d := by
        rw [Nat.div_lt_iff_lt_mul (by norm_num)]
        calc n < 10 ^ (d + 1) := h
        _ = 10 ^ d * 10 := by ring
      have := ih hd1 this
      simp [List.length_append]
      omega

/-- Digit-count lower bound. -/
theorem decChars_length_gt {d n : Nat} (h : 10 ^ d ≤ n) :
    d < (decChars n).length := by
  induction d generalizing n with
  | zero =>
    have := decChars_ne_nil n
    cases hc : decChars n with
    | nil => exact absurd hc this
    | cons a l => simp
  | succ d ih =>
    have hpow : (10 : Nat) ≤ 10 ^ (d + 1) := by
      calc (10 : Nat) = 10 ^ 1 := by norm_num
      _ ≤ 10 ^ (d + 1) := Nat.pow_le_pow_right (by norm_num) (by omega)
    have hn : 10 ≤ n := le_trans hpow h
    rw [decChars_ge10 hn]
    have : 10 ^ d ≤ n / 10 := by
      rw [Nat.le_div_iff_mul_le (by norm_num)]
      calc 10 ^ d * 10 = 10 ^ (d + 1) := by ring
      _ ≤ n := h
    have := ih this
    simp [List.length_append]
    omega

/-- Trailing-zero trim distributes over append when the suffix keeps a
non-zero character. -/
theorem trimEndZeros_append {a b : List Char} (h : trimEndZeros b ≠ []) :
    trimEndZeros (a ++ b) = a ++ trimEndZeros b := by
  have hb : ¬(List.dropWhile (fun x => decide (x = '0')) b.reverse = []) := by
    intro hc
    apply h
    unfold trimEndZeros
    rw [hc]
    rfl
  unfold trimEndZeros
  rw [List.reverse_append, List.dropWhile_append]
  rw [if_neg (by simpa using hb)]
  simp

/-- Trailing-zero trim collapses to the prefix when the suffix is all
zeros. -/
theorem trimEndZeros_append_nil {a b : List Char} (h : trimEndZeros b = []) :
    trimEndZeros (a ++ b) = trimEndZeros a := by
  have hb : List.dropWhile (fun x => decide (x = '0')) b.reverse = [] := by
    have := congrArg List.reverse h
    simpa [trimEndZeros] using this
  unfold trimEndZeros
  rw [List.reverse_append, List.dropWhile_append]
  rw [if_pos (by simpa using hb)]

/-- A run of zeros trims to nothing. -/
theorem trimEndZeros_replicate (k : Nat) :
    trimEndZeros (List.replicate k '0') = [] := by
  unfold trimEndZeros
  rw [List.reverse_replicate, List.dropWhile_replicate]
  simp

/-- A non-zero value keeps at least one digit after trimming. -/
theorem trimEndZeros_decChars_ne_nil {n : Nat} (h : n ≠ 0) :
    trimEndZeros (decChars n) ≠ [] := by
  induction n using Nat.strong_induction_on with
  | _ n ih =>
    by_cases hn : n < 10
    · rw [decChars_lt10 hn]
      unfold trimEndZeros
      simp only [List.reverse_singleton]
      have : hexDigit n ≠ '0' := by
        interval_cases n <;> simp_all <;> decide
      simp [List.dropWhile, this]
    · rw [decChars_ge10 (by omega)]
      by_cases hm : hexDigit (n % 10) = '0'
      · have hmod : n % 10 = 0 := by
          have hlt : n % 10 < 10 := Nat.mod_lt n (by norm_num)
          interval_cases hmm : (n % 10) <;> simp_all <;> exact absurd hm (by decide)
        rw [trimEndZeros_append_nil (by rw [hm]; exact trimEndZeros_replicate 1)]
        exact ih (n / 10) (Nat.div_lt_self (by omega) (by norm_num))
          (by have := Nat.div_pos (by omega : 10 ≤ n) (by norm_num); omega)
      · rw [trimEndZeros_append (b := [hexDigit (n % 10)]) (by
          unfold trimEndZeros
          simp [List.dropWhile, hm])]
        intro hcon
        have := (List.append_eq_nil.mp hcon).2
        unfold trimEndZeros at this
        simp [List.dropWhile, hm] at this

/-- Digit-count step. -/
theorem decChars_len_div10 {n : Nat} (h : 10 ≤ n) :
    (decChars n).length = (decChars (n / 10)).length + 1 := by
  rw [decChars_ge10 h]
  simp

/-- Peeling the last digit off a zero-padded rendering. -/
theorem padLeft_step {d m : Nat} (hd : 1 ≤ d) (_hm : m < 10 ^ (d + 1)) :
    padLeftZeros (d + 1) (decChars m) =
      padLeftZeros d (decChars (m / 10)) ++ [hexDigit (m % 10)] := by
  by_cases hsm : m < 10
  · rw [decChars_lt10 hsm, Nat.div_eq_of_lt hsm, decChars_lt10 (by norm_num : (0 : Nat) < 10),
      Nat.mod_eq_of_lt hsm]
    unfold padLeftZeros
    simp only [List.length_singleton]
    rw [show hexDigit 0 = '0' from by decide]
    have hrep : List.replicate d '0' = List.replicate (d - 1) '0' ++ ['0'] := by
      conv_lhs => rw [show d = (d - 1) + 1 by omega]
      exact List.replicate_succ' (d - 1) '0'
    rw [show d + 1 - 1 = d by omega, hrep]
  · rw [decChars_ge10 (by omega : 10 ≤ m)]
    unfold padLeftZeros
    rw [List.length_append]
    have hlen := decChars_len_div10 (n := m) (by omega)
    simp only [List.length_singleton]
    rw [show d + 1 - ((decChars (m / 10)).length + 1) = d - (decChars (m / 10)).length
      by omega]
    simp [List.append_assoc]

/-- Splitting a decimal rendering `d` places from the right matches
dividing by `10^d`. -/
theorem decChars_split {d n : Nat} (hd : 1 ≤ d) (h : 10 ^ d ≤ n) :
    decChars n = decChars (n / 10 ^ d) ++ padLeftZeros d (decChars (n % 10 ^ d)) := by
  induction d generalizing n with
  | zero => omega
  | succ d ih =>
    by_cases hd0 : d = 0
    · subst hd0
      simp only [Nat.zero_add, pow_one]
      have h10 : 10 ≤ n := by simpa using h
      rw [decChars_ge10 h10]
      have hmod : n % 10 < 10 := Nat.mod_lt n (by norm_num)
      rw [decChars_lt10 hmod]
      unfold padLeftZeros
      simp
    · have hd1 : 1 ≤ d := by omega
      have hpow : (10 : Nat) ≤ 10 ^ (d + 1) := by
        calc (10 : Nat) = 10 ^ 1 := by norm_num
        _ ≤ 10 ^ (d + 1) := Nat.pow_le_pow_right (by norm_num) (by omega)
      have h10 : 10 ≤ n := le_trans hpow h
      have hquot : 10 ^ d ≤ n / 10 := by
        rw [Nat.le_div_iff_mul_le (by norm_num)]
        calc 10 ^ d * 10 = 10 ^ (d + 1) := by ring
        _ ≤ n := h
      rw [decChars_ge10 h10, ih hd1 hquot, List.append_assoc]
      have hmlt : n % 10 ^ (d + 1) < 10 ^ (d + 1) :=
        Nat.mod_lt n (Nat.pos_pow_of_pos _ (by norm_num))
      rw [padLeft_step hd1 hmlt]
      have hdd : n / 10 / 10 ^ d = n / 10 ^ (d + 1) := by
        rw [Nat.div_div_eq_div_mul]
        congr 1
        ring
      have hq : n % 10 ^ (d + 1) / 10 = n / 10 % 10 ^ d := by
        rw [show (10 : Nat) ^ (d + 1) = 10 * 10 ^ d by ring]
        exact Nat.mod_mul_right_div_self n 10 (10 ^ d)
      have hr : n % 10 ^ (d + 1) % 10 = n % 10 :=
        Nat.mod_mod_of_dvd n (dvd_pow_self 10 (Nat.succ_ne_zero d))
      rw [hdd, hq, hr]

/-- `trimEndZeros` is Mathlib's `rdropWhile` at the zero predicate. -/
theorem trimEndZeros_eq_rdropWhile (s : List Char) :
    trimEndZeros s = List.rdropWhile (fun x => x = '0') s := rfl

/-- The last kept character of a digit string is a digit (hence not a
point). -/
theorem trimEndZeros_getLast_digit {s : List Char}
    (hdig : ∀ c ∈ s, c.isDigit = true) {c : Char}
    (h : (trimEndZeros s).getLast? = some c) : c.isDigit = true := by
  have hmem : c ∈ trimEndZeros s := List.mem_of_getLast?_eq_some h
  have hpre : trimEndZeros s <+: s := by
    rw [trimEndZeros_eq_rdropWhile]
    exact List.rdropWhile_prefix _ s
  exact hdig c (hpre.subset hmem)

/-- C2 core: the source's string-splitting `format_with_decimals`
agrees with the specification's arithmetic formulation everywhere. -/
theorem formatWithDecimals_eq_spec (amount d : Nat) :
    formatWithDecimals amount d = specDecimalString amount d := by
  simp only [formatWithDecimals, specDecimalString]
  by_cases hd : d = 0
  · rw [if_pos hd, if_pos hd]
  · rw [if_neg hd, if_neg hd]
    by_cases ha : amount = 0
    · subst ha
      rw [if_pos rfl]
      rw [decChars_lt10 (by norm_num : (0 : Nat) < 10)]
      rw [show hexDigit 0 = '0' from by decide]
      rw [if_pos (by simp; omega)]
      simp only [List.length_singleton]
      have hall : trimEndZeros (List.replicate (d - 1) '0' ++ ['0']) = [] := by
        have hrep : List.replicate (d - 1) '0' ++ ['0'] = List.replicate d '0' := by
          conv_rhs => rw [show d = (d - 1) + 1 by omega]
          exact (List.replicate_succ' (d - 1) '0').symm
        rw [hrep]
        exact trimEndZeros_replicate d
      have htrim : trimEndZeros ('0' :: '.' :: (List.replicate (d - 1) '0' ++ ['0'])) =
          ['0', '.'] := by
        rw [show ('0' :: '.' :: (List.replicate (d - 1) '0' ++ ['0'])) =
          ['0', '.'] ++ (List.replicate (d - 1) '0' ++ ['0']) from rfl]
        rw [trimEndZeros_append_nil hall]
        decide
      rw [htrim]
      decide
    · rw [if_neg ha]
      by_cases hlt : amount < 10 ^ d
      · have hlen : (decChars amount).length ≤ d := decChars_length_le (by omega) hlt
        rw [if_pos hlen, Nat.div_eq_of_lt hlt, Nat.mod_eq_of_lt hlt]
        rw [decChars_lt10 (by norm_num : (0 : Nat) < 10)]
        rw [show hexDigit 0 = '0' from by decide]
        unfold padLeftZeros
        have hfracne : trimEndZeros (List.replicate (d - (decChars amount).length) '0' ++
            decChars amount) ≠ [] := by
          rw [trimEndZeros_append (trimEndZeros_decChars_ne_nil ha)]
          intro hc
          exact trimEndZeros_decChars_ne_nil ha (List.append_eq_nil.mp hc).2
        rw [show ('0' :: '.' :: (List.replicate (d - (decChars amount).length) '0' ++
            decChars amount)) = ['0', '.'] ++ (List.replicate (d - (decChars amount).length)
            '0' ++ decChars amount) from rfl]
        rw [trimEndZeros_append hfracne]
        have hlast : (['0', '.'] ++ trimEndZeros
            (List.replicate (d - (decChars amount).length) '0' ++
              decChars amount)).getLast? ≠ some '.' := by
          rw [List.getLast?_append_of_ne_nil _ hfracne]
          intro hc
          have hdig : ∀ c ∈ List.replicate (d - (decChars amount).length) '0' ++
              decChars amount, c.isDigit = true := by
            intro c hc2
            rcases List.mem_append.mp hc2 with hc3 | hc3
            · rw [List.eq_of_mem_replicate hc3]; decide
            · exact decChars_all_digits amount c hc3
          have := trimEndZeros_getLast_digit hdig hc
          simp at this
        rw [if_neg hlast]
        rw [if_neg (by
          intro hc
          rw [List.isEmpty_iff] at hc
          exact hfracne hc)]
        rfl
      · push_neg at hlt
        have hgt := decChars_length_gt hlt
        rw [if_neg (by omega)]
        have hsplit := decChars_split (d := d) (by omega) hlt
        have hmodlen : (decChars (amount % 10 ^ d)).length ≤ d := by
          by_cases hz : amount % 10 ^ d = 0
          · rw [hz, decChars_lt10 (by norm_num)]
            simp
            omega
          · exact decChars_length_le (by omega)
              (Nat.mod_lt _ (Nat.pos_pow_of_pos _ (by norm_num)))
        have hpadlen : (padLeftZeros d (decChars (amount % 10 ^ d))).length = d := by
          unfold padLeftZeros
          rw [List.length_append, List.length_replicate]
          omega
        have hlenEq : (decChars amount).length =
            (decChars (amount / 10 ^ d)).length + d := by
          rw [hsplit, List.length_append, hpadlen]
        have htake : (decChars amount).take ((decChars amount).length - d) =
            decChars (amount / 10 ^ d) := by
          rw [hlenEq, Nat.add_sub_cancel, hsplit]
          exact List.take_left _ _
        have hdrop : (decChars amount).drop ((decChars amount).length - d) =
            padLeftZeros d (decChars (amount % 10 ^ d)) := by
          rw [hlenEq, Nat.add_sub_cancel, hsplit]
          exact List.drop_left _ _
        rw [htake, hdrop]

/-- C2: on a token-metadata hit, `format_token_amount` renders the
decimal amount (per `format_with_decimals`, which provably implements
the spec's radix-point-and-trim rule, with zero rendering as `0.0`)
followed by a space and the symbol; in particular amount 1000000 with
the 6-decimal USDT token renders `1 USDT`. -/
theorem token_amount_formatting :
    (∀ amount d : Nat, formatWithDecimals amount d = specDecimalString amount d) ∧
    (∀ d : Nat, 1 ≤ d → formatWithDecimals 0 d = ("0.0".data)) ∧
    (∀ (ctx : RenderCtx) (warnings : List (List Char)) (bytes : List Byte)
        (ps : FormatParams) (tokenPath : List Char) (addr : List Byte)
        (meta : TokenMeta),
      ps.tokenPath = some tokenPath →
      ps.nativeCurrencyAddress = none →
      resolvePath ctx.decoded tokenPath = some (.address addr) →
      ctx.tokenSource (tokenLookupKey (resolveChainId ctx (some ps))
        ('0' :: 'x' :: hexEncode addr)) = some meta →
      formatTokenAmount ctx warnings (.uint bytes) (some ps) =
        .ok (formatWithDecimals (beNat bytes) meta.decimals ++ ' ' :: meta.symbol,
          warnings)) ∧
    formatTokenAmount usdtCtx [] (.uint (List.replicate 29 0 ++ [0x0f, 0x42, 0x40]))
        (some { tokenPath := some ("@.0".data) }) =
      .ok (("1 USDT".data), []) := by
  refine ⟨formatWithDecimals_eq_spec, ?_, ?_, ?_⟩
  · intro d hd
    rw [formatWithDecimals_eq_spec]
    unfold specDecimalString
    rw [if_neg (by omega), if_pos rfl]
  · intro ctx warnings bytes ps tokenPath addr meta h1 h2 h3 h4
    simp only [formatTokenAmount, h1, h2, h3, h4]
  · rfl

/-- C2 witness: the hit-structure clause applied at the USDT scenario
(and the zero clause at 18 decimals). -/
theorem token_amount_formatting_witness :
    (formatWithDecimals 0 18 = ("0.0".data)) ∧
    (({ tokenPath := some ("@.0".data) } : FormatParams).tokenPath =
        some ("@.0".data) ∧
      ({ tokenPath := some ("@.0".data) } : FormatParams).nativeCurrencyAddress = none ∧
      resolvePath usdtCtx.decoded ("@.0".data) = some (.address usdtAddr) ∧
      usdtCtx.tokenSource (tokenLookupKey
        (resolveChainId usdtCtx (some { tokenPath := some ("@.0".data) }))
        ('0' :: 'x' :: hexEncode usdtAddr)) = some usdtMeta ∧
      formatTokenAmount usdtCtx [] (.uint (List.replicate 29 0 ++ [0x0f, 0x42, 0x40]))
          (some { tokenPath := some ("@.0".data) }) =
        .ok (formatWithDecimals (beNat (List.replicate 29 0 ++ [0x0f, 0x42, 0x40]))
          usdtMeta.decimals ++ ' ' :: usdtMeta.symbol, [])) :=
  ⟨token_amount_formatting.2.1 18 (by decide),
   rfl, rfl, rfl, rfl,
   token_amount_formatting.2.2.1 usdtCtx [] (List.replicate 29 0 ++ [0x0f, 0x42, 0x40])
     { tokenPath := some ("@.0".data) } ("@.0".data) usdtAddr usdtMeta rfl rfl rfl rfl⟩

/-! ## C7: the parse/canonical round-trip -/

/-- A decimal digit is not whitespace. -/
theorem digit_not_ws {c : Char} (h : c.isDigit = true) : ¬ c.isWhitespace = true := by
  intro hw
  simp [Char.isDigit] at h
  simp [Char.isWhitespace] at hw
  rcases hw with ((h1 | h1) | h1) | h1 <;> subst h1 <;> simp_all

/-- A decimal digit is not a bracket, paren or comma. -/
theorem digit_ne_special {c : Char} (h : c.isDigit = true) :
    c ≠ '[' ∧ c ≠ '(' ∧ c ≠ ')' ∧ c ≠ ',' := by
  refine ⟨?_, ?_, ?_, ?_⟩ <;> intro he <;> subst he <;> simp [Char.isDigit] at h

/-- `dropWhile` is the identity when the head fails the predicate. -/
theorem dropWhile_eq_self_of_head {p : Char → Bool} {l : List Char}
    (h : ∀ c, l.head? = some c → ¬ p c = true) : l.dropWhile p = l := by
  cases l with
  | nil => rfl
  | cons a t => exact List.dropWhile_cons_of_neg (h a rfl)

/-- `trim` is the identity on strings whose two ends are not whitespace. -/
theorem trimChars_eq_self_of_ends {s : List Char}
    (h1 : ∀ c, s.head? = some c → ¬ c.isWhitespace = true)
    (h2 : ∀ c, s.getLast? = some c → ¬ c.isWhitespace = true) :
    trimChars s = s := by
  unfold trimChars
  rw [dropWhile_eq_self_of_head h1]
  rw [dropWhile_eq_self_of_head (by
    intro c hc
    rw [List.head?_reverse] at hc
    exact h2 c hc)]
  exact List.reverse_reverse s

/-- `trim` is the identity on whitespace-free strings. -/
theorem trimChars_eq_self {s : List Char}
    (h : ∀ c ∈ s, ¬ c.isWhitespace = true) : trimChars s = s := by
  refine trimChars_eq_self_of_ends (fun c hc => ?_) (fun c hc => ?_)
  · exact h c (by cases s with
      | nil => simp at hc
      | cons a t => injection hc with h'; simp [h'])
  · exact h c (List.mem_of_mem_getLast? hc)

/-- The head of a `dropWhile` result fails the predicate. -/
theorem head_dropWhile_not {p : Char → Bool} :
    ∀ (l : List Char) (c : Char), (l.dropWhile p).head? = some c → ¬ p c = true := by
  intro l
  induction l with
  | nil => intro c hc; simp at hc
  | cons a t ih =>
    intro c hc
    by_cases ha : p a
    · rw [List.dropWhile_cons_of_pos ha] at hc
      exact ih c hc
    · rw [List.dropWhile_cons_of_neg ha] at hc
      injection hc with h'
      exact h' ▸ ha

/-- The head of a trimmed string is not whitespace. -/
theorem trimChars_head_not_ws {s : List Char} {c : Char}
    (h : (trimChars s).head? = some c) : ¬ c.isWhitespace = true := by
  have hpre : trimChars s <+: s.dropWhile Char.isWhitespace := by
    unfold trimChars
    rw [← List.reverse_suffix]
    simpa using List.dropWhile_suffix (l := (s.dropWhile Char.isWhitespace).reverse)
      Char.isWhitespace
  obtain ⟨r, hr⟩ := hpre
  have hne : trimChars s ≠ [] := by
    intro he; rw [he] at h; simp at h
  have : (s.dropWhile Char.isWhitespace).head? = some c := by
    rw [← hr, List.head?_append_of_ne_nil _ hne, h]
  exact head_dropWhile_not s c this

/-- `hexDigit` of a value below 10 is the ASCII digit. -/
theorem hexDigit_toNat {n : Nat} (h : n < 10) : (hexDigit n).toNat = 48 + n := by
  interval_cases n <;> decide

/-- Value of the decimal digits under the `parse::<usize>` fold. -/
theorem decChars_foldl (n : Nat) : ∀ a : Nat,
    (decChars n).foldl (fun a c => a * 10 + (c.toNat - 48)) a =
      a * 10 ^ (decChars n).length + n := by
  induction n using Nat.strong_induction_on with
  | _ n ih =>
    intro a
    by_cases h : n < 10
    · rw [decChars_lt10 h]
      simp [hexDigit_toNat h]
    · push_neg at h
      rw [decChars_ge10 h, List.foldl_append,
        ih (n / 10) (Nat.div_lt_self (by omega) (by norm_num)) a]
      have hm : n % 10 < 10 := Nat.mod_lt _ (by norm_num)
      simp only [List.foldl_cons, List.foldl_nil, List.length_append,
        List.length_singleton, hexDigit_toNat hm]
      rw [pow_succ]
      have : 48 + n % 10 - 48 = n % 10 := by omega
      rw [this]
      have := Nat.div_add_mod n 10
      ring_nf
      omega

/-- `str::parse::<usize>` round-trips the decimal rendering. -/
theorem parseUsize_decChars (n : Nat) : parseUsize (decChars n) = some n := by
  obtain ⟨c, cs, hc⟩ := List.exists_cons_of_ne_nil (decChars_ne_nil n)
  have hdig : c.isDigit = true := decChars_all_digits n c (by rw [hc]; simp)
  have hplus : c ≠ '+' := by
    intro he; subst he; simp [Char.isDigit] at hdig
  rw [hc]
  simp only [parseUsize, List.head?_cons, List.tail_cons, Option.some.injEq]
  rw [if_neg hplus]
  rw [if_neg (by simp), if_pos]
  · rw [show (c :: cs) = decChars n from hc.symm, decChars_foldl n 0]
    simp
  · rw [show (c :: cs) = decChars n from hc.symm]
    simp only [List.all_eq_true]
    exact fun x hx => by simpa using decChars_all_digits n x hx

/-- `rfind` misses when the character is absent. -/
theorem lastIdxOf_eq_none_of_not_mem {s : List Char} {c : Char} (h : c ∉ s) :
    lastIdxOf s c = none := by
  have hscr : s.reverse.findIdx? (· = c) = none := by
    rw [List.findIdx?_eq_none_iff]
    intro x hx
    simp only [decide_eq_false_iff_not]
    intro he
    exact h (he ▸ (List.mem_reverse.mp hx))
  unfold lastIdxOf
  rw [hscr]

/-- `rfind` of the separating character of an append, absent from the
right part. -/
theorem lastIdxOf_append_cons {x y : List Char} {c : Char} (h : c ∉ y) :
    lastIdxOf (x ++ c :: y) c = some x.length := by
  have h1 : y.reverse.findIdx? (· = c) = none := by
    rw [List.findIdx?_eq_none_iff]
    intro a ha
    simp only [decide_eq_false_iff_not]
    intro he
    exact h (he ▸ (List.mem_reverse.mp ha))
  have h2 : ([c] ++ x.reverse).findIdx? (· = c) = some 0 := by
    rw [List.singleton_append, List.findIdx?_cons]
    simp
  have hscr : (x ++ c :: y).reverse.findIdx? (· = c) = some y.length := by
    rw [List.reverse_append, List.reverse_cons, List.append_assoc,
      List.findIdx?_append, h1, h2]
    simp
  unfold lastIdxOf
  rw [hscr]
  simp only [List.length_append, List.length_cons, Option.some.injEq]
  omega

/-- A run without parens or commas leaves the scan depth unchanged. -/
theorem scanDepth_other {l : List Char}
    (h : ∀ c ∈ l, c ≠ '(' ∧ c ≠ ')' ∧ c ≠ ',') : ∀ d, scanDepth d l = some d := by
  induction l with
  | nil => intro d; rfl
  | cons c cs ih =>
    intro d
    obtain ⟨h1, h2, h3⟩ := h c (by simp)
    simp only [scanDepth]
    rw [if_neg h1, if_neg h2, if_neg (by intro hc; exact h3 hc.1)]
    exact ih (fun a ha => h a (by simp [ha])) d

/-- The scan depth threads through appends. -/
theorem scanDepth_append (x y : List Char) : ∀ d,
    scanDepth d (x ++ y) = (scanDepth d x).bind (fun d2 => scanDepth d2 y) := by
  induction x with
  | nil => intro d; simp [scanDepth]
  | cons c cs ih =>
    intro d
    simp only [List.cons_append, scanDepth]
    by_cases h1 : c = '('
    · simp [h1, ih]
    · by_cases h2 : c = ')'
      · cases d with
        | zero => simp [h1, h2]
        | succ d' => simp [h1, h2, ih]
      · by_cases h3 : c = ',' ∧ d = 0
        · simp [h1, h2, h3]
        · simp [h1, h2, h3, ih]

/-- Replaying the scanning loop over a boundary-free run: the depth
follows `scanDepth` and the characters accumulate onto the current
segment. -/
theorem plFold (fuel : Nat) : ∀ (seg : List Char) (d d2 : Nat) (cur : List Char)
    (acc : List ParamType),
    scanDepth d seg = some d2 →
    seg.foldl (fun st c => plStepF (fuel + 1) st c) (.ok (d, cur, acc)) =
      .ok (d2, cur ++ seg, acc) := by
  intro seg
  induction seg with
  | nil =>
    intro d d2 cur acc h
    injection h with h'
    subst h'
    simp
  | cons c cs ih =>
    intro d d2 cur acc h
    rw [List.foldl_cons]
    by_cases h1 : c = '('
    · subst h1
      simp only [scanDepth, if_pos] at h
      rw [show plStepF (fuel + 1) (Except.ok (d, cur, acc)) '(' =
        .ok (d + 1, cur ++ ['('], acc) from rfl]
      rw [ih (d + 1) d2 (cur ++ ['(']) acc h]
      simp
    · by_cases h2 : c = ')'
      · subst h2
        cases d with
        | zero => simp [scanDepth] at h
        | succ d' =>
          simp [scanDepth] at h
          rw [show plStepF (fuel + 1) (Except.ok (d' + 1, cur, acc)) ')' =
            .ok (d', cur ++ [')'], acc) from rfl]
          rw [ih d' d2 (cur ++ [')']) acc h]
          simp
      · by_cases h3 : c = ','
        · subst h3
          cases d with
          | zero => simp [scanDepth] at h
          | succ d' =>
            have hstep : plStepF (fuel + 1) (Except.ok (d' + 1, cur, acc)) ',' =
                .ok (d' + 1, cur ++ [','], acc) := by
              simp only [plStepF]
              rw [if_neg (by decide), if_neg (by decide), if_neg (by simp)]
            rw [hstep]
            simp [scanDepth] at h
            rw [ih _ d2 _ acc h]
            simp
        · have hstep : plStepF (fuel + 1) (Except.ok (d, cur, acc)) c =
              .ok (d, cur ++ [c], acc) := by
            simp only [plStepF]
            rw [if_neg h1, if_neg h2, if_neg (by intro hc; exact h3 hc.1)]
          rw [hstep]
          simp only [scanDepth] at h
          rw [if_neg h1, if_neg h2, if_neg (by intro hc; exact h3 hc.1)] at h
          rw [ih _ d2 _ acc h]
          simp

/-- Lists with different heads differ. -/
theorem ne_of_head? {s t : List Char} (h : s.head? ≠ t.head?) : s ≠ t :=
  fun he => h (congrArg List.head? he)

/-- `parse_param_type` inverts the canonical `uint` rendering. -/
theorem parsePrimitive_uint (bits : Nat) :
    parsePrimitive (("uint".data) ++ decChars bits) = .ok (.uint bits) := by
  have hu : (("uint".data) ++ decChars bits).head? = some 'u' := rfl
  have hA : ("uint".data) ++ decChars bits ≠ ("address".data) :=
    ne_of_head? (by rw [hu]; decide)
  have hB : ("uint".data) ++ decChars bits ≠ ("bool".data) :=
    ne_of_head? (by rw [hu]; decide)
  have hS : ("uint".data) ++ decChars bits ≠ ("string".data) :=
    ne_of_head? (by rw [hu]; decide)
  have hY : ("uint".data) ++ decChars bits ≠ ("bytes".data) :=
    ne_of_head? (by rw [hu]; decide)
  have hU : ("uint".data) ++ decChars bits ≠ ("uint".data) := by
    intro he
    have hl := congrArg List.length he
    simp [List.length_append] at hl
    exact (decChars_ne_nil bits) hl
  unfold parsePrimitive
  rw [if_neg hA, if_neg hB, if_neg hS, if_neg hY,
      if_pos (by rw [List.isPrefixOf_iff_prefix]; exact List.prefix_append _ _),
      if_neg hU]
  rw [show (("uint".data) ++ decChars bits).drop 4 = decChars bits from by
    rw [show 4 = ("uint".data).length from rfl]
    exact List.drop_left _ _]
  rw [parseUsize_decChars]

/-- `parse_param_type` inverts the canonical `int` rendering. -/
theorem parsePrimitive_int (bits : Nat) :
    parsePrimitive (("int".data) ++ decChars bits) = .ok (.int bits) := by
  have hu : (("int".data) ++ decChars bits).head? = some 'i' := rfl
  have hA : ("int".data) ++ decChars bits ≠ ("address".data) :=
    ne_of_head? (by rw [hu]; decide)
  have hB : ("int".data) ++ decChars bits ≠ ("bool".data) :=
    ne_of_head? (by rw [hu]; decide)
  have hS : ("int".data) ++ decChars bits ≠ ("string".data) :=
    ne_of_head? (by rw [hu]; decide)
  have hY : ("int".data) ++ decChars bits ≠ ("bytes".data) :=
    ne_of_head? (by rw [hu]; decide)
  have hI : ("int".data) ++ decChars bits ≠ ("int".data) := by
    intro he
    have hl := congrArg List.length he
    simp [List.length_append] at hl
    exact (decChars_ne_nil bits) hl
  have hUP : ¬ (("uint".data).isPrefixOf ((("int".data) ++ decChars bits)) = true) := by
    rw [show ("uint".data).isPrefixOf ((("int".data) ++ decChars bits)) = false from rfl]
    simp
  unfold parsePrimitive
  rw [if_neg hA, if_neg hB, if_neg hS, if_neg hY, if_neg hUP,
      if_pos (by rw [List.isPrefixOf_iff_prefix]; exact List.prefix_append _ _),
      if_neg hI]
  rw [show (("int".data) ++ decChars bits).drop 3 = decChars bits from by
    rw [show 3 = ("int".data).length from rfl]
    exact List.drop_left _ _]
  rw [parseUsize_decChars]

/-- `parse_param_type` inverts the canonical fixed-bytes rendering. -/
theorem parsePrimitive_fixedBytes (size : Nat) :
    parsePrimitive (("bytes".data) ++ decChars size) = .ok (.fixedBytes size) := by
  have hlen : 1 ≤ (decChars size).length :=
    List.length_pos.mpr (decChars_ne_nil size)
  have hu : (("bytes".data) ++ decChars size).head? = some 'b' := rfl
  have hA : ("bytes".data) ++ decChars size ≠ ("address".data) :=
    ne_of_head? (by rw [hu]; decide)
  have hB : ("bytes".data) ++ decChars size ≠ ("bool".data) := by
    intro he
    have hl := congrArg List.length he
    simp [List.length_append] at hl
  have hS : ("bytes".data) ++ decChars size ≠ ("string".data) :=
    ne_of_head? (by rw [hu]; decide)
  have hY : ("bytes".data) ++ decChars size ≠ ("bytes".data) := by
    intro he
    have hl := congrArg List.length he
    simp [List.length_append] at hl
    exact (decChars_ne_nil size) hl
  have hUP : ¬ (("uint".data).isPrefixOf ((("bytes".data) ++ decChars size)) = true) := by
    rw [show ("uint".data).isPrefixOf ((("bytes".data) ++ decChars size)) = false from rfl]
    simp
  have hIP : ¬ (("int".data).isPrefixOf ((("bytes".data) ++ decChars size)) = true) := by
    rw [show ("int".data).isPrefixOf ((("bytes".data) ++ decChars size)) = false from rfl]
    simp
  unfold parsePrimitive
  rw [if_neg hA, if_neg hB, if_neg hS, if_neg hY, if_neg hUP, if_neg hIP,
      if_pos (by rw [List.isPrefixOf_iff_prefix]; exact List.prefix_append _ _)]
  rw [show (("bytes".data) ++ decChars size).drop 5 = decChars size from by
    rw [show 5 = ("bytes".data).length from rfl]
    exact List.drop_left _ _]
  rw [parseUsize_decChars]

/-- When the (trimmed) input has no bracket and does not open with a
paren, `parse_param_type` defers to the primitive match. -/
theorem parseParamTypeF_no_bracket (k : Nat) {s : List Char}
    (htrim : trimChars s = s) (hnb : '[' ∉ s) (hhead : s.head? ≠ some '(') :
    parseParamTypeF (k + 1) s = parsePrimitive s := by
  simp only [parseParamTypeF]
  rw [htrim, lastIdxOf_eq_none_of_not_mem hnb]
  rw [if_neg (fun hc => hhead hc.1)]

/-- Whitespace-freeness of a letters-then-digits canonical form. -/
theorem prefix_digits_no_ws {pre : List Char}
    (hpre : ∀ c ∈ pre, ¬ c.isWhitespace = true) (n : Nat) :
    ∀ c ∈ pre ++ decChars n, ¬ c.isWhitespace = true := by
  intro c hc
  rcases List.mem_append.mp hc with h | h
  · exact hpre c h
  · exact digit_not_ws (decChars_all_digits n c h)

/-- Specials-freeness of a letters-then-digits canonical form. -/
theorem prefix_digits_other {pre : List Char}
    (hpre : ∀ c ∈ pre, c ≠ '(' ∧ c ≠ ')' ∧ c ≠ ',') (n : Nat) :
    ∀ c ∈ pre ++ decChars n, c ≠ '(' ∧ c ≠ ')' ∧ c ≠ ',' := by
  intro c hc
  rcases List.mem_append.mp hc with h | h
  · exact hpre c h
  · obtain ⟨_, h2, h3, h4⟩ := digit_ne_special (decChars_all_digits n c h)
    exact ⟨h2, h3, h4⟩

/-- Bracket-freeness of a letters-then-digits canonical form. -/
theorem prefix_digits_no_bracket {pre : List Char}
    (hpre : '[' ∉ pre) (n : Nat) : '[' ∉ pre ++ decChars n := by
  intro hc
  rcases List.mem_append.mp hc with h | h
  · exact hpre h
  · exact (digit_ne_special (decChars_all_digits n _ h)).1 rfl

/-- Canonical invariants: `address`. -/
theorem canonCase_address : canonProp .address := by
  unfold canonProp
  refine ⟨by decide, by decide, fun d => scanDepth_other (by decide) d, ?_⟩
  intro fuel hf
  obtain ⟨k, rfl⟩ : ∃ k, fuel = k + 1 := ⟨fuel - 1, by omega⟩
  rfl

/-- Canonical invariants: `bool`. -/
theorem canonCase_bool : canonProp .bool := by
  unfold canonProp
  refine ⟨by decide, by decide, fun d => scanDepth_other (by decide) d, ?_⟩
  intro fuel hf
  obtain ⟨k, rfl⟩ : ∃ k, fuel = k + 1 := ⟨fuel - 1, by omega⟩
  rfl

/-- Canonical invariants: `bytes`. -/
theorem canonCase_bytes : canonProp .bytes := by
  unfold canonProp
  refine ⟨by decide, by decide, fun d => scanDepth_other (by decide) d, ?_⟩
  intro fuel hf
  obtain ⟨k, rfl⟩ : ∃ k, fuel = k + 1 := ⟨fuel - 1, by omega⟩
  rfl

/-- Canonical invariants: `string`. -/
theorem canonCase_string : canonProp .string := by
  unfold canonProp
  refine ⟨by decide, by decide, fun d => scanDepth_other (by decide) d, ?_⟩
  intro fuel hf
  obtain ⟨k, rfl⟩ : ∃ k, fuel = k + 1 := ⟨fuel - 1, by omega⟩
  rfl

/-- Canonical invariants: `uint<bits>`. -/
theorem canonCase_uint (bits : Nat) : canonProp (.uint bits) := by
  unfold canonProp
  have hcanon : canonicalParam (.uint bits) = ("uint".data) ++ decChars bits := rfl
  rw [hcanon]
  refine ⟨List.append_ne_nil_of_left_ne_nil (by decide) _,
    prefix_digits_no_ws (by decide) bits,
    fun d => scanDepth_other (prefix_digits_other (by decide) bits) d, ?_⟩
  intro fuel hf
  obtain ⟨k, rfl⟩ : ∃ k, fuel = k + 1 := ⟨fuel - 1, by omega⟩
  rw [parseParamTypeF_no_bracket k
    (trimChars_eq_self (prefix_digits_no_ws (by decide) bits))
    (prefix_digits_no_bracket (by decide) bits)
    (by rw [show ((("uint".data) ++ decChars bits)).head? = some 'u' from rfl]; decide)]
  exact parsePrimitive_uint bits

/-- Canonical invariants: `int<bits>`. -/
theorem canonCase_int (bits : Nat) : canonProp (.int bits) := by
  unfold canonProp
  have hcanon : canonicalParam (.int bits) = ("int".data) ++ decChars bits := rfl
  rw [hcanon]
  refine ⟨List.append_ne_nil_of_left_ne_nil (by decide) _,
    prefix_digits_no_ws (by decide) bits,
    fun d => scanDepth_other (prefix_digits_other (by decide) bits) d, ?_⟩
  intro fuel hf
  obtain ⟨k, rfl⟩ : ∃ k, fuel = k + 1 := ⟨fuel - 1, by omega⟩
  rw [parseParamTypeF_no_bracket k
    (trimChars_eq_self (prefix_digits_no_ws (by decide) bits))
    (prefix_digits_no_bracket (by decide) bits)
    (by rw [show ((("int".data) ++ decChars bits)).head? = some 'i' from rfl]; decide)]
  exact parsePrimitive_int bits

/-- Canonical invariants: `bytes<size>`. -/
theorem canonCase_fixedBytes (size : Nat) : canonProp (.fixedBytes size) := by
  unfold canonProp
  have hcanon : canonicalParam (.fixedBytes size) = ("bytes".data) ++ decChars size := rfl
  rw [hcanon]
  refine ⟨List.append_ne_nil_of_left_ne_nil (by decide) _,
    prefix_digits_no_ws (by decide) size,
    fun d => scanDepth_other (prefix_digits_other (by decide) size) d, ?_⟩
  intro fuel hf
  obtain ⟨k, rfl⟩ : ∃ k, fuel = k + 1 := ⟨fuel - 1, by omega⟩
  rw [parseParamTypeF_no_bracket k
    (trimChars_eq_self (prefix_digits_no_ws (by decide) size))
    (prefix_digits_no_bracket (by decide) size)
    (by rw [show ((("bytes".data) ++ decChars size)).head? = some 'b' from rfl]; decide)]
  exact parsePrimitive_fixedBytes size

/-- Canonical invariants: `T[]`. -/
theorem canonCase_array (inner : ParamType) (ih : canonProp inner) :
    canonProp (.array inner) := by
  obtain ⟨ih1, ih2, ih3, ih4⟩ := ih
  unfold canonProp
  have hcanon : canonicalParam (.array inner) = canonicalParam inner ++ '[' :: [']'] := rfl
  rw [hcanon]
  have hws : ∀ c ∈ canonicalParam inner ++ '[' :: [']'], ¬ c.isWhitespace = true := by
    intro c hc
    rcases List.mem_append.mp hc with h | h
    · exact ih2 c h
    · rcases List.mem_cons.mp h with rfl | h
      · decide
      · rcases List.mem_singleton.mp h with rfl
        decide
  refine ⟨List.append_ne_nil_of_left_ne_nil ih1 _, hws, ?_, ?_⟩
  · intro d
    rw [scanDepth_append, ih3 d, Option.some_bind]
    exact scanDepth_other (by decide) d
  · intro fuel hf
    obtain ⟨k, rfl⟩ : ∃ k, fuel = k + 1 := ⟨fuel - 1, by omega⟩
    have hassoc : canonicalParam inner ++ '[' :: [']'] =
        (canonicalParam inner ++ ['[']) ++ [']'] := by simp
    have htrim : trimChars (canonicalParam inner ++ '[' :: [']']) =
        canonicalParam inner ++ '[' :: [']'] := trimChars_eq_self hws
    have hidx : lastIdxOf (canonicalParam inner ++ '[' :: [']']) '[' =
        some (canonicalParam inner).length := lastIdxOf_append_cons (by decide)
    have hlast : (canonicalParam inner ++ '[' :: [']']).getLast? = some ']' := by
      rw [hassoc]; exact List.getLast?_concat _
    have htake : (canonicalParam inner ++ '[' :: [']']).take (canonicalParam inner).length =
        canonicalParam inner := List.take_left _ _
    have hdrop : (canonicalParam inner ++ '[' :: [']']).drop
        ((canonicalParam inner).length + 1) = [']'] := by
      rw [hassoc, show (canonicalParam inner).length + 1 =
        (canonicalParam inner ++ ['[']).length from by simp]
      exact List.drop_left _ _
    have hin : parseParamTypeF k (canonicalParam inner) = .ok inner := by
      refine ih4 k ?_
      rw [show (canonicalParam inner ++ '[' :: [']']).length =
        (canonicalParam inner).length + 2 from by simp] at hf
      omega
    simp only [parseParamTypeF, htrim, hidx, hlast, htake, hdrop, hin]
    simp

/-- Canonical invariants: `T[n]`. -/
theorem canonCase_fixedArray (inner : ParamType) (size : Nat) (ih : canonProp inner) :
    canonProp (.fixedArray inner size) := by
  obtain ⟨ih1, ih2, ih3, ih4⟩ := ih
  unfold canonProp
  have hcanon : canonicalParam (.fixedArray inner size) =
      canonicalParam inner ++ '[' :: (decChars size ++ [']']) := rfl
  rw [hcanon]
  have hsufother : ∀ c ∈ '[' :: (decChars size ++ [']']), c ≠ '(' ∧ c ≠ ')' ∧ c ≠ ',' := by
    intro c hc
    rcases List.mem_cons.mp hc with rfl | h
    · decide
    · rcases List.mem_append.mp h with h | h
      · obtain ⟨_, h2, h3, h4⟩ := digit_ne_special (decChars_all_digits size c h)
        exact ⟨h2, h3, h4⟩
      · rcases List.mem_singleton.mp h with rfl
        decide
  have hws : ∀ c ∈ canonicalParam inner ++ '[' :: (decChars size ++ [']']),
      ¬ c.isWhitespace = true := by
    intro c hc
    rcases List.mem_append.mp hc with h | h
    · exact ih2 c h
    · rcases List.mem_cons.mp h with rfl | h
      · decide
      · rcases List.mem_append.mp h with h | h
        · exact digit_not_ws (decChars_all_digits size c h)
        · rcases List.mem_singleton.mp h with rfl
          decide
  refine ⟨List.append_ne_nil_of_left_ne_nil ih1 _, hws, ?_, ?_⟩
  · intro d
    rw [scanDepth_append, ih3 d, Option.some_bind]
    exact scanDepth_other hsufother d
  · intro fuel hf
    obtain ⟨k, rfl⟩ : ∃ k, fuel = k + 1 := ⟨fuel - 1, by omega⟩
    have hassoc : canonicalParam inner ++ '[' :: (decChars size ++ [']']) =
        (canonicalParam inner ++ '[' :: decChars size) ++ [']'] := by simp
    have htrim : trimChars (canonicalParam inner ++ '[' :: (decChars size ++ [']'])) =
        canonicalParam inner ++ '[' :: (decChars size ++ [']']) := trimChars_eq_self hws
    have hnb : '[' ∉ decChars size ++ [']'] := by
      intro h
      rcases List.mem_append.mp h with h | h
      · exact (digit_ne_special (decChars_all_digits size _ h)).1 rfl
      · exact absurd (List.mem_singleton.mp h) (by decide)
    have hidx : lastIdxOf (canonicalParam inner ++ '[' :: (decChars size ++ [']'])) '[' =
        some (canonicalParam inner).length := lastIdxOf_append_cons hnb
    have hlast : (canonicalParam inner ++ '[' :: (decChars size ++ [']'])).getLast? =
        some ']' := by
      rw [hassoc]; exact List.getLast?_concat _
    have htake : (canonicalParam inner ++ '[' :: (decChars size ++ [']'])).take
        (canonicalParam inner).length = canonicalParam inner := List.take_left _ _
    have hdrop : (canonicalParam inner ++ '[' :: (decChars size ++ [']'])).drop
        ((canonicalParam inner).length + 1) = decChars size ++ [']'] := by
      rw [show canonicalParam inner ++ '[' :: (decChars size ++ [']']) =
        (canonicalParam inner ++ ['[']) ++ (decChars size ++ [']']) from by simp,
        show (canonicalParam inner).length + 1 =
          (canonicalParam inner ++ ['[']).length from by simp]
      exact List.drop_left _ _
    have hdroplast : (decChars size ++ [']']).dropLast = decChars size :=
      List.dropLast_concat
    have hne : ¬ ((decChars size).isEmpty = true) := by
      simp [List.isEmpty_iff, decChars_ne_nil size]
    have hin : parseParamTypeF k (canonicalParam inner) = .ok inner := by
      have hlen : (canonicalParam inner ++ '[' :: (decChars size ++ [']'])).length =
          (canonicalParam inner).length + (decChars size).length + 2 := by
        simp
        omega
      rw [hlen] at hf
      exact ih4 k (by omega)
    simp only [parseParamTypeF, htrim, hidx, hlast, htake, hdrop, hin, hdroplast,
      parseUsize_decChars]
    simp [hne]

/-- For a trimmed input that opens with `(` and closes with `)`, the
array branch of `parse_param_type` never fires and parsing reduces to
the tuple branch. -/
theorem parseParamTypeF_tuple_shape (k : Nat) {s0 : List Char}
    (htrim : trimChars s0 = s0) (hhead : s0.head? = some '(')
    (hlast : s0.getLast? = some ')') :
    parseParamTypeF (k + 1) s0 =
      (if ((s0.drop 1).dropLast).isEmpty then .ok (.tuple [])
       else match parseParamListF k ((s0.drop 1).dropLast) with
         | .ok members => .ok (.tuple members)
         | .error e => .error e) := by
  simp only [parseParamTypeF, htrim]
  cases hidx : lastIdxOf s0 '[' with
  | none => simp [hhead, hlast]
  | some bp => simp [hlast, hhead]

/-- Canonical invariants: tuples. -/
theorem canonCase_tuple (ms : List ParamType) (ih : canonListProp ms) :
    canonProp (.tuple ms) := by
  obtain ⟨ih1, ih2, ih3, ih4⟩ := ih
  unfold canonProp
  have hcanon : canonicalParam (.tuple ms) = '(' :: (canonicalParams ms ++ [')']) := rfl
  rw [hcanon]
  have hws : ∀ c ∈ '(' :: (canonicalParams ms ++ [')']), ¬ c.isWhitespace = true := by
    intro c hc
    rcases List.mem_cons.mp hc with rfl | h
    · decide
    · rcases List.mem_append.mp h with h | h
      · exact ih1 c h
      · rcases List.mem_singleton.mp h with rfl
        decide
  refine ⟨by simp, hws, ?_, ?_⟩
  · intro d
    simp only [scanDepth]
    rw [if_pos trivial]
    rw [scanDepth_append, ih2 (d + 1) (by omega), Option.some_bind]
    rfl
  · intro fuel hf
    obtain ⟨k, rfl⟩ : ∃ k, fuel = k + 1 := ⟨fuel - 1, by omega⟩
    have hlen2 : ('(' :: (canonicalParams ms ++ [')'])).length =
        (canonicalParams ms).length + 2 := by
      simp
    rw [hlen2] at hf
    have hassoc : '(' :: (canonicalParams ms ++ [')']) =
        ('(' :: canonicalParams ms) ++ [')'] := by simp
    have htrim := trimChars_eq_self hws
    have hhead : ('(' :: (canonicalParams ms ++ [')'])).head? = some '(' := rfl
    have hlast : ('(' :: (canonicalParams ms ++ [')'])).getLast? = some ')' := by
      rw [hassoc]; exact List.getLast?_concat _
    rw [parseParamTypeF_tuple_shape k htrim hhead hlast]
    have hinner : ((('(' :: (canonicalParams ms ++ [')'])).drop 1)).dropLast =
        canonicalParams ms := List.dropLast_concat
    rw [hinner]
    cases ms with
    | nil => simp [canonicalParams]
    | cons m tail =>
      have hjne : canonicalParams (m :: tail) ≠ [] := ih3 (by simp)
      rw [if_neg (by simp [List.isEmpty_iff, hjne])]
      obtain ⟨k2, rfl⟩ : ∃ k2, k = k2 + 1 := ⟨k - 1, by omega⟩
      simp only [parseParamListF]
      rw [ih4 k2 [] (by simp) (by omega)]
      simp

/-- Canonical invariants: the empty member list. -/
theorem canonListCase_nil : canonListProp [] := by
  unfold canonListProp
  refine ⟨?_, ?_, ?_, ?_⟩
  · intro c hc
    simp [canonicalParams] at hc
  · intro d _
    rfl
  · intro h
    exact absurd rfl h
  · intro f acc hne hf
    exact absurd rfl hne

/-- Canonical invariants: a nonempty member list. -/
theorem canonListCase_cons (m : ParamType) (tail : List ParamType)
    (ihm : canonProp m) (iht : canonListProp tail) : canonListProp (m :: tail) := by
  obtain ⟨m1, m2, m3, m4⟩ := ihm
  obtain ⟨t1, t2, t3, t4⟩ := iht
  unfold canonListProp
  cases tail with
  | nil =>
    have hc : canonicalParams [m] = canonicalParam m := rfl
    rw [hc]
    refine ⟨m2, fun d _ => m3 d, fun _ => m1, ?_⟩
    intro f acc hne hf
    obtain ⟨g, rfl⟩ : ∃ g, f = g + 1 := ⟨f - 1, by omega⟩
    rw [plFold g (canonicalParam m) 0 0 [] acc (m3 0)]
    simp only [List.nil_append, plFinishF]
    rw [if_neg (by simp)]
    rw [trimChars_eq_self m2]
    rw [if_neg (by simp [List.isEmpty_iff, m1])]
    rw [m4 g (by omega)]
  | cons m2' rest =>
    have hc : canonicalParams (m :: m2' :: rest) =
        canonicalParam m ++ ',' :: canonicalParams (m2' :: rest) := rfl
    rw [hc]
    refine ⟨?_, ?_, ?_, ?_⟩
    · intro c hcm
      rcases List.mem_append.mp hcm with h | h
      · exact m2 c h
      · rcases List.mem_cons.mp h with rfl | h
        · decide
        · exact t1 c h
    · intro d hd
      rw [scanDepth_append, m3 d, Option.some_bind]
      simp only [scanDepth]
      rw [if_neg (by decide), if_neg (by decide), if_neg (by simp [hd])]
      exact t2 d hd
    · intro _
      exact List.append_ne_nil_of_left_ne_nil m1 _
    · intro f acc hne hf
      have hlen : (canonicalParam m ++ ',' :: canonicalParams (m2' :: rest)).length =
          (canonicalParam m).length + (canonicalParams (m2' :: rest)).length + 1 := by
        simp
        omega
      rw [hlen] at hf
      obtain ⟨g, rfl⟩ : ∃ g, f = g + 1 := ⟨f - 1, by omega⟩
      rw [List.foldl_append, plFold g (canonicalParam m) 0 0 [] acc (m3 0)]
      simp only [List.nil_append, List.foldl_cons]
      have hstep : plStepF (g + 1) (Except.ok (0, canonicalParam m, acc)) ',' =
          .ok (0, [], m :: acc) := by
        simp only [plStepF]
        rw [if_neg (by decide), if_neg (by decide),
          if_pos (by refine ⟨?_, ?_⟩ <;> trivial)]
        rw [trimChars_eq_self m2, m4 g (by omega)]
      rw [hstep]
      rw [t4 (g + 1) (m :: acc) (by simp) (by omega)]
      simp

/-- Every parameter type's canonical string satisfies the canonical
invariants (nested structural induction over `ParamType`). -/
theorem canonProp_all : ∀ p : ParamType, canonProp p := fun p =>
  @ParamType.rec canonProp canonListProp
    canonCase_address canonCase_uint canonCase_int canonCase_bool canonCase_bytes
    canonCase_fixedBytes canonCase_string canonCase_array canonCase_fixedArray
    canonCase_tuple canonListCase_nil canonListCase_cons p

/-- Every member list's canonical join satisfies the list invariants. -/
theorem canonListProp_all : ∀ ms : List ParamType, canonListProp ms := fun ms =>
  @List.rec ParamType (fun l => canonListProp l) canonListCase_nil
    (fun m tail iht => canonListCase_cons m tail (canonProp_all m) iht) ms

/-- `findIdx?` never returns an index below its start offset. -/
theorem findIdx_ge {p : Char → Bool} : ∀ (l : List Char) (i j : Nat),
    List.findIdx? p l i = some j → i ≤ j := by
  intro l
  induction l with
  | nil => intro i j h; simp [List.findIdx?] at h
  | cons a t ih =>
    intro i j h
    rw [List.findIdx?_cons] at h
    by_cases hpa : p a = true
    · rw [if_pos hpa] at h
      injection h with h'
      omega
    · rw [if_neg hpa] at h
      have := ih (i + 1) j h
      omega

/-- Everything strictly before a `findIdx?` hit fails the predicate. -/
theorem findIdx_take {p : Char → Bool} : ∀ (l : List Char) (i j : Nat),
    List.findIdx? p l i = some j → ∀ c ∈ l.take (j - i), p c = false := by
  intro l
  induction l with
  | nil => intro i j h; simp [List.findIdx?] at h
  | cons a t ih =>
    intro i j h c hc
    rw [List.findIdx?_cons] at h
    by_cases hpa : p a = true
    · rw [if_pos hpa] at h
      injection h with h'
      rw [← h', Nat.sub_self] at hc
      simp at hc
    · rw [if_neg hpa] at h
      have hge := findIdx_ge t (i + 1) j h
      have hsub : j - i = (j - (i + 1)) + 1 := by omega
      rw [hsub, List.take_cons (by omega)] at hc
      rcases List.mem_cons.mp hc with rfl | hmem
      · exact Bool.not_eq_true _ |>.mp hpa
      · exact ih (i + 1) j h c (by simpa using hmem)

/-- `findIdx?` locates the first `(` appended after a paren-free run. -/
theorem findIdx_append_open (rest : List Char) : ∀ (x : List Char) (i : Nat),
    (∀ c ∈ x, c ≠ '(') →
    List.findIdx? (· = '(') (x ++ '(' :: rest) i = some (i + x.length) := by
  intro x
  induction x with
  | nil =>
    intro i h
    rw [List.nil_append, List.findIdx?_cons]
    simp
  | cons a t ih =>
    intro i h
    rw [List.cons_append, List.findIdx?_cons,
      if_neg (by simp [h a (by simp)]), ih (i + 1) (fun c hc => h c (by simp [hc]))]
    simp only [Option.some.injEq, List.length_cons]
    omega

/-- Re-parsing a canonical signature succeeds and reproduces every
field. -/
theorem parseSignature_canonical (name : List Char) (params : List ParamType)
    (hne : name ≠ []) (hnp : ∀ c ∈ name, c ≠ '(')
    (hhead : ∀ c, name.head? = some c → ¬ c.isWhitespace = true) :
    parseSignature (name ++ '(' :: (canonicalParams params ++ [')'])) =
      .ok { name := name, params := params,
            canonical := name ++ '(' :: (canonicalParams params ++ [')']),
            selector :=
              selectorFromSignature (name ++ '(' :: (canonicalParams params ++ [')'])) } := by
  have hlast2 : (name ++ '(' :: (canonicalParams params ++ [')'])).getLast? =
      some ')' := by
    rw [show name ++ '(' :: (canonicalParams params ++ [')']) =
      (name ++ '(' :: canonicalParams params) ++ [')'] from by simp]
    exact List.getLast?_concat _
  have htrim2 : trimChars (name ++ '(' :: (canonicalParams params ++ [')'])) =
      name ++ '(' :: (canonicalParams params ++ [')']) := by
    refine trimChars_eq_self_of_ends ?_ ?_
    · intro c hc
      rw [List.head?_append_of_ne_nil _ hne] at hc
      exact hhead c hc
    · intro c hc
      rw [hlast2] at hc
      injection hc with hc'
      subst hc'
      decide
  have hfi2 : (name ++ '(' :: (canonicalParams params ++ [')'])).findIdx? (· = '(') =
      some name.length := by
    have := findIdx_append_open (canonicalParams params ++ [')']) name 0 hnp
    simpa using this
  have hps : ((name ++ '(' :: (canonicalParams params ++ [')'])).drop
      (name.length + 1)).dropLast = canonicalParams params := by
    rw [show name ++ '(' :: (canonicalParams params ++ [')']) =
      (name ++ ['(']) ++ (canonicalParams params ++ [')']) from by simp,
      show name.length + 1 = (name ++ ['(']).length from by simp]
    rw [List.drop_left]
    exact List.dropLast_concat
  simp only [parseSignature, htrim2, hfi2]
  rw [if_neg (by rw [hlast2]; simp)]
  rw [List.take_left]
  rw [if_neg (by simp [List.isEmpty_iff, hne])]
  rw [hps]
  cases params with
  | nil => simp [canonicalParams]
  | cons m tail =>
    obtain ⟨q1, q2, q3, q4⟩ := canonListProp_all (m :: tail)
    have hjne : canonicalParams (m :: tail) ≠ [] := q3 (by simp)
    rw [if_neg (by simp [List.isEmpty_iff, hjne])]
    simp only [parseParamList]
    rw [show 2 * (canonicalParams (m :: tail)).length + 4 =
      (2 * (canonicalParams (m :: tail)).length + 3) + 1 from rfl]
    simp only [parseParamListF]
    rw [q4 (2 * (canonicalParams (m :: tail)).length + 3) [] (by simp) (by omega)]
    simp

/-- C7: every signature string accepted by `parse_signature` round-trips
through its canonical form — parsing the canonical string succeeds and
returns the very same parsed signature (same name, parameters, canonical
string and selector), so canonical(parse(canonical(parse(s)))) equals
canonical(parse(s)) for all accepted `s`, including nested tuples and
dynamic and fixed arrays. -/
theorem signature_canonical_roundtrip (s : List Char) (sig : FunctionSignature)
    (h : parseSignature s = .ok sig) : parseSignature sig.canonical = .ok sig := by
  simp only [parseSignature] at h
  split at h
  · simp at h
  · rename_i opening hfi
    split at h
    · simp at h
    · rename_i hlastne
      split at h
      · simp at h
      · rename_i hnameE
        split at h
        · simp at h
        · rename_i params hp
          injection h with h2
          have hnameE' : (trimChars s).take opening ≠ [] := by
            intro he
            exact hnameE (by simp [he])
          have hnp : ∀ c ∈ (trimChars s).take opening, c ≠ '(' := by
            intro c hc
            have hd := findIdx_take (trimChars s) 0 opening (by simpa using hfi) c
              (by simpa using hc)
            exact of_decide_eq_false hd
          have hhead : ∀ c, ((trimChars s).take opening).head? = some c →
              ¬ c.isWhitespace = true := by
            intro c hc
            obtain ⟨a, t', hta⟩ : ∃ a t', trimChars s = a :: t' := by
              cases hts : trimChars s with
              | nil => exact absurd (by rw [hts]; simp) hnameE'
              | cons a t' => exact ⟨a, t', rfl⟩
            have hop : 0 < opening := by
              rcases Nat.eq_zero_or_pos opening with h0 | h1
              · exact absurd (by rw [h0]; simp) hnameE'
              · exact h1
            refine trimChars_head_not_ws (s := s) ?_
            rw [hta, List.take_cons hop] at hc
            rw [hta]
            simpa using hc
          subst h2
          exact parseSignature_canonical ((trimChars s).take opening) params
            hnameE' hnp hhead

/-- Witness: a concrete signature with mixed interior whitespace
round-trips through its canonical form. -/
theorem signature_canonical_roundtrip_witness :
    parseSignature roundTripSigInput = .ok roundTripSig ∧
    parseSignature roundTripSig.canonical = .ok roundTripSig :=
  ⟨by rfl, signature_canonical_roundtrip roundTripSigInput roundTripSig (by rfl)⟩

end Erc7730
